import Mathlib

/-!
Verification of the serializr (de)serialization engine (src/serializr.js)
against its natural-language specification.

The development shallowly embeds the relevant parts of the source:

* a `Value` type for JSON-compatible JavaScript values (with `vundef`
  modelling `undefined` and `vdate` modelling `Date` instances);
* the pure property schemas `primitive`, `date`, `alias`, `custom` and the
  synchronous property walk of `serializeWithSchema` /
  `deserializePropsWithSchema` (all of these prop schemas invoke their
  continuation synchronously, so the walk is modelled as a fold);
* the default-model-schema registry (`getDefaultModelSchema`,
  `setDefaultModelSchema`) together with the exported API map of
  `mrFactory`;
* the `parallel` helper's aggregation state machine;
* an operational small-step model of the asynchronous deserialization
  pipeline: `Context` objects with pending-callback / pending-reference
  counters, defunctionalized single-shot callbacks (`createCallback`),
  `await` / `resolve` reference bookkeeping, `deserializeObjectWithSchema`
  and top-level `deserialize`.

Machine integers do not occur; JS counters are modelled as `Int`/`Nat`.
-/

namespace Serializr

/-- JSON-compatible JavaScript values.  `vundef` is `undefined`,
`vdate ms` a `Date` holding `ms` milliseconds since the epoch. -/
inductive Value where
  | vnull
  | vundef
  | vbool (b : Bool)
  | vnum (n : Int)
  | vstr (s : String)
  | vdate (ms : Int)
  | vobj (fields : List (String × Value))
  | varr (elems : List Value)

/-- JavaScript `typeof` on the embedded values (`typeof null = "object"`). -/
def typeofV : Value → String
  | .vnull => "object"
  | .vundef => "undefined"
  | .vbool _ => "boolean"
  | .vnum _ => "number"
  | .vstr _ => "string"
  | .vdate _ => "object"
  | .vobj _ => "object"
  | .varr _ => "object"

/-- `isPrimitive` (src/serializr.js:53-57): `null` is primitive, otherwise any
value whose `typeof` is neither `"object"` nor `"function"`. -/
def isPrimitive : Value → Bool
  | .vnull => true
  | v => typeofV v != "object" && typeofV v != "function"

/-- A crude rendering of a value used only inside error-message strings. -/
def jsShow : Value → String
  | .vnull => "null"
  | .vundef => "undefined"
  | .vbool b => if b then "true" else "false"
  | .vnum n => toString n
  | .vstr s => s
  | .vdate ms => "Date(" ++ toString ms ++ ")"
  | .vobj _ => "[object Object]"
  | .varr _ => "[array]"

/-- Serializer of `primitive()` (src/serializr.js:566-578): an `invariant`
throw is modelled as `Except.error`. -/
def primitiveSerializer (v : Value) : Except String Value :=
  if isPrimitive v then .ok v
  else .error ("[serializr] this value is not primitive: " ++ jsShow v)

/-- Deserializer of `primitive()`: `done(err)` becomes `Except.error`,
`done(null, v)` becomes `Except.ok v`. -/
def primitiveDeserializer (v : Value) : Except String Value :=
  if isPrimitive v then .ok v
  else .error ("[serializr] this value is not primitive: " ++ jsShow v)

/-- The claim's characterisation of a primitive: `null`, or any value that is
neither an object nor a function (by JS `typeof`). -/
def claimPrimitive (v : Value) : Prop :=
  v = .vnull ∨ (typeofV v ≠ "object" ∧ typeofV v ≠ "function")

/-! ### The default-model-schema registry and the exported API map

Schemas are identified by numeric tags; `clazz.serializeInfo` slots are an
association list from class id to schema tag. -/

/-- Arguments acceptable to `getDefaultModelSchema`: nothing, a model schema
value, a class (constructor function), or an instance of a class. -/
inductive JThing where
  | jnull
  | jschema (s : Nat)
  | jclass (c : Nat)
  | jinstance (c : Nat)
  deriving DecidableEq, Repr

/-- The side table of `serializeInfo` slots: class id ↦ schema tag. -/
abbrev Registry := List (Nat × Nat)

/-- `getDefaultModelSchema` (src/serializr.js:192-201): `null` for a falsy
argument; a model schema resolves to itself; a class resolves through its
`serializeInfo` slot; an instance through `constructor.serializeInfo`. -/
def getDefaultModelSchemaM (reg : Registry) : JThing → Option Nat
  | .jnull => none
  | .jschema s => some s
  | .jclass c => reg.lookup c
  | .jinstance c => reg.lookup c

/-- The internal `setDefaultModelSchema` (src/serializr.js:214-217):
`clazz.serializeInfo = modelSchema`, returning the schema. -/
def setDefaultModelSchemaM (reg : Registry) (c : Nat) (s : Nat) : Registry × Nat :=
  ((c, s) :: reg.filter (fun kv => kv.1 ≠ c), s)

/-- The exported API map of `mrFactory` (src/serializr.js:953-973) binds the
name `setDefaultModelSchema` to the function `getDefaultModelSchema`
(line 956), so the publicly exposed operation evaluates
`getDefaultModelSchema(clazz)`, ignores its second argument, and never
writes to the registry. -/
def exportedSetDefaultModelSchema (reg : Registry) (c : Nat) (_s : Nat) :
    Registry × Option Nat :=
  (reg, getDefaultModelSchemaM reg (.jclass c))

/-- The exported `getDefaultModelSchema` (line 957). -/
def exportedGetDefaultModelSchema (reg : Registry) (t : JThing) : Option Nat :=
  getDefaultModelSchemaM reg t

/-! ### `object(modelSchema)` construction (src/serializr.js:738-753)

The constructor body runs `modelSchema = getDefaultModelSchema(modelSchema)`
followed by `invariant(isModelSchema(modelSchema), ...)` before the
serializer/deserializer closures are built, so resolution happens at
construction time.  The returned prop schema closes over the schema value
resolved at that moment. -/

/-- `object(schemaRef)`: the construction-time part.  Returns the schema tag
captured by the closures, or the `invariant` error thrown when `schemaRef`
does not resolve to a model schema. -/
def objectCtor (reg : Registry) (ref : JThing) : Except String Nat :=
  match getDefaultModelSchemaM reg ref with
  | some s => .ok s
  | none => .error "[serializr] expected modelSchema, got undefined"

/-! ### Keyed collections as association lists

JS objects (and the other keyed tables of the source: heaps, wrapper and
context tables, `pendingRefs`, sparse result arrays) are association lists;
`setA` models keyed assignment: overwriting an existing key keeps its
position, a new key is appended (JS insertion order). -/

/-- `table[k] = v`. -/
def setA {κ α : Type} [BEq κ] (l : List (κ × α)) (k : κ) (v : α) :
    List (κ × α) :=
  if (l.lookup k).isSome then l.map (fun kv => if kv.1 == k then (k, v) else kv)
  else l ++ [(k, v)]

/-- Update the value at a key in place. -/
def updA {κ α : Type} [BEq κ] (l : List (κ × α)) (k : κ) (f : α → α) :
    List (κ × α) :=
  l.map (fun kv => if kv.1 == k then (k, f kv.2) else kv)

/-- `table[k].push(x)`, creating the list when the key is new. -/
def pushA {κ α : Type} [BEq κ] (l : List (κ × List α)) (k : κ) (x : α) :
    List (κ × List α) :=
  if (l.lookup k).isSome then updA l k (fun xs => xs ++ [x])
  else l ++ [(k, [x])]

abbrev Obj := List (String × Value)

/-- `obj[k]` — `undefined` when the key is absent. -/
def objGet (o : Obj) (k : String) : Value := (o.lookup k).getD (.vundef)

/-- `k in obj`. -/
def objHas (o : Obj) (k : String) : Bool := (o.lookup k).isSome

/-- `obj[k] = v`. -/
def objSet (o : Obj) (k : String) (v : Value) : Obj := setA o k v

/-! ### The synchronous prop-schema algebra

These built-ins (`primitive`, `date`, `alias`, `custom`, the sentinels
`true`/`false`) all invoke their continuation synchronously, so their
deserializers are modelled as `Value → Except String Value`; the `*` star
entry is the property key `"*"` paired with `true`. -/

/-- A property entry of a model schema's `props` map.  `ptrue`/`pfalse` are
the sentinels `true`/`false`; `customP ser deser` wraps two user functions
(`custom`'s deserializer never reports an error: it calls
`done(null, deser(json))`). -/
inductive PDef where
  | ptrue
  | pfalse
  | primP
  | dateP
  | customP (ser : Value → Value) (deser : Value → Value)
  | aliasP (name : String) (inner : PDef)

/-- `propSchema.jsonname` — only `alias` sets it. -/
def jsonnameOf : PDef → Option String
  | .aliasP n _ => some n
  | _ => none

/-- The walk replaces the sentinel `true` by `_defaultPrimitiveProp`. -/
def canonP : PDef → PDef
  | .ptrue => .primP
  | pd => pd

/-- `propDef === true`. -/
def isTrueP : PDef → Bool
  | .ptrue => true
  | _ => false

/-- `propDef === false`. -/
def isFalseP : PDef → Bool
  | .pfalse => true
  | _ => false

/-- `propDef.jsonname || key`. -/
def jsonAttrOf (pd : PDef) (key : String) : String := (jsonnameOf pd).getD key

/-- Serializer of `date()` (src/serializr.js:638-653): null/undefined pass
through, a `Date` encodes as epoch milliseconds, anything else throws. -/
def dateSerializer : Value → Except String Value
  | .vnull => .ok .vnull
  | .vundef => .ok .vundef
  | .vdate ms => .ok (.vnum ms)
  | _ => .error "[serializr] Expected Date object"

/-- Deserializer of `date()`: null/undefined pass through, otherwise
`new Date(jsonValue)`; a non-numeric argument (never produced by the
serializer and not exercised by any claim) is modelled as an arbitrary
date. -/
def dateDeserializer : Value → Except String Value
  | .vnull => .ok .vnull
  | .vundef => .ok .vundef
  | .vnum ms => .ok (.vdate ms)
  | _ => .ok (.vdate 0)

/-- `propDef.serializer` for the synchronous algebra (`alias` delegates to
its inner prop schema). -/
def pdefSer : PDef → Value → Except String Value
  | .ptrue, v => primitiveSerializer v
  | .pfalse, _ => .ok .vundef
  | .primP, v => primitiveSerializer v
  | .dateP, v => dateSerializer v
  | .customP f _, v => .ok (f v)
  | .aliasP _ inner, v => pdefSer inner v

/-- `propDef.deserializer` for the synchronous algebra. -/
def pdefDeser : PDef → Value → Except String Value
  | .ptrue, v => primitiveDeserializer v
  | .pfalse, _ => .ok .vundef
  | .primP, v => primitiveDeserializer v
  | .dateP, v => dateDeserializer v
  | .customP _ g, v => .ok (g v)
  | .aliasP _ inner, v => pdefDeser inner v

/-- A model schema: a `props` map (insertion-ordered association list) and an
optional parent schema (`extends`). -/
inductive SSchema where
  | mk (props : List (String × PDef)) (ext : Option SSchema)

def SSchema.props : SSchema → List (String × PDef)
  | .mk ps _ => ps

def SSchema.ext : SSchema → Option SSchema
  | .mk _ e => e

/-- `schemaHasAlias` (src/serializr.js:407-412). -/
def schemaHasAliasM (props : List (String × PDef)) (name : String) : Bool :=
  props.any (fun kv => jsonnameOf kv.2 == some name)

/-- `serializeStarProps` (src/serializr.js:316-322): walk the object's own
keys; keys not in the schema's props must hold primitive values and are
copied to the result. -/
def serializeStarWalk (allProps : List (String × PDef)) :
    List (String × Value) → Obj → Except String Obj
  | [], res => .ok res
  | kv :: rest, res =>
    if (allProps.lookup kv.1).isSome then serializeStarWalk allProps rest res
    else if isPrimitive kv.2 then
      serializeStarWalk allProps rest (objSet res kv.1 kv.2)
    else
      .error ("[serializr] encountered non primitive value while serializing '*' properties in property '"
        ++ kv.1 ++ "': " ++ jsShow kv.2)

/-- `deserializeStarProps` (src/serializr.js:414-420): walk the json's keys;
keys neither in the schema's props nor used as some prop's `jsonname` must
hold primitive values and are assigned onto the target. -/
def deserializeStarWalk (allProps : List (String × PDef)) :
    List (String × Value) → Obj → Except String Obj
  | [], target => .ok target
  | kv :: rest, target =>
    if (allProps.lookup kv.1).isSome || schemaHasAliasM allProps kv.1 then
      deserializeStarWalk allProps rest target
    else if isPrimitive kv.2 then
      deserializeStarWalk allProps rest (objSet target kv.1 kv.2)
    else
      .error ("[serializr] encountered non primitive value while deserializing '*' properties in property '"
        ++ kv.1 ++ "': " ++ jsShow kv.2)

/-- The per-level props iteration of `serializeWithSchema`
(src/serializr.js:299-312).  A synchronous throw aborts the walk. -/
def serializePropsWalk (allProps : List (String × PDef)) (obj : Obj) :
    List (String × PDef) → Obj → Except String Obj
  | [], res => .ok res
  | kp :: rest, res =>
    if kp.1 = "*" then
      if isTrueP kp.2 then
        match serializeStarWalk allProps obj res with
        | .ok res' => serializePropsWalk allProps obj rest res'
        | .error e => .error e
      else .error "[serializr] prop schema '*' can onle be used with 'true'"
    else if isFalseP kp.2 then serializePropsWalk allProps obj rest res
    else
      match pdefSer (canonP kp.2) (objGet obj kp.1) with
      | .ok jv =>
        serializePropsWalk allProps obj rest
          (objSet res (jsonAttrOf (canonP kp.2) kp.1) jv)
      | .error e => .error e

/-- `serializeWithSchema` (src/serializr.js:289-314): serialize with the
parent schema first (empty object when there is no `extends`), then walk this
level's props. -/
def serializeWithSchemaM : SSchema → Obj → Except String Obj
  | .mk props ext, obj =>
    match ext with
    | some p =>
      match serializeWithSchemaM p obj with
      | .ok base => serializePropsWalk props obj props base
      | .error e => .error e
    | none => serializePropsWalk props obj props []

/-- The per-level props iteration of `deserializePropsWithSchema`
(src/serializr.js:376-405) for synchronous prop schemas: a prop whose JSON
key (`jsonname || propName`) is absent from the json is skipped; otherwise
its deserializer runs and, on success, the value is assigned onto the target
under the property name.  The first error latches the context (no later
assignment is observable), modelled by aborting the walk. -/
def deserializePropsWalk (allProps : List (String × PDef)) (json : Obj) :
    List (String × PDef) → Obj → Except String Obj
  | [], target => .ok target
  | kp :: rest, target =>
    if kp.1 = "*" then
      if isTrueP kp.2 then
        match deserializeStarWalk allProps json target with
        | .ok t' => deserializePropsWalk allProps json rest t'
        | .error e => .error e
      else .error "[serializr] prop schema '*' can onle be used with 'true'"
    else if isFalseP kp.2 then deserializePropsWalk allProps json rest target
    else
      if objHas json (jsonAttrOf (canonP kp.2) kp.1) then
        match pdefDeser (canonP kp.2) (objGet json (jsonAttrOf (canonP kp.2) kp.1)) with
        | .ok v => deserializePropsWalk allProps json rest (objSet target kp.1 v)
        | .error e => .error e
      else deserializePropsWalk allProps json rest target

/-- `deserializePropsWithSchema`: walk the `extends` chain outer-first, then
this level's props. -/
def deserializePropsWithSchemaM : SSchema → Obj → Obj → Except String Obj
  | .mk props ext, json, target =>
    match ext with
    | some p =>
      match deserializePropsWithSchemaM p json target with
      | .ok t => deserializePropsWalk props json props t
      | .error e => .error e
    | none => deserializePropsWalk props json props target

/-- `update(modelSchema, target, json, ...)` (src/serializr.js:525-544): the
same property walk as deserialize, reusing `target`; for synchronous props
the completion value is the walked target. -/
def updateM (schema : SSchema) (target : Obj) (json : Obj) : Except String Obj :=
  deserializePropsWithSchemaM schema json target

/-- Serialization with a `createSimpleSchema(props)` schema. -/
def serializeSimpleM (props : List (String × PDef)) (x : Obj) : Except String Obj :=
  serializeWithSchemaM (.mk props none) x

/-- Deserialization with a `createSimpleSchema(props)` schema: the factory
produces a fresh `{}`. -/
def deserializeSimpleM (props : List (String × PDef)) (json : Obj) : Except String Obj :=
  deserializePropsWithSchemaM (.mk props none) json []

/-- The prop kinds the round-trip claim ranges over: primitive (the sentinel
`true` or `primitive()`), `date()`, `custom(ser, deser)`, and `alias` over
one of those (`alias` canonicalises a `true`/omitted inner prop to
`primitive()` at construction, so an alias of the raw sentinel does not
arise). -/
def roundKind : PDef → Prop
  | .ptrue => True
  | .primP => True
  | .dateP => True
  | .customP _ _ => True
  | .aliasP _ inner =>
    match inner with
    | .primP => True
    | .dateP => True
    | .customP _ _ => True
    | _ => False
  | .pfalse => False

/-- A value `x[key]` serializable under its prop schema and recoverable by
the inverse direction: primitives must satisfy `isPrimitive`, dates must be
null/undefined/a date instance, a custom pair must be symmetric at the
value. -/
def roundOk : PDef → Value → Prop
  | .ptrue, v => isPrimitive v = true
  | .primP, v => isPrimitive v = true
  | .dateP, v => v = .vnull ∨ v = .vundef ∨ ∃ ms, v = .vdate ms
  | .customP f g, v => g (f v) = v
  | .aliasP _ inner, v => roundOk inner v
  | .pfalse, _ => False

/-- The JSON value a prop serializes to (meaningful when serialization
succeeds). -/
def serValFv (pd : PDef) (v : Value) : Value :=
  match pdefSer (canonP pd) v with
  | .ok jv => jv
  | .error _ => (.vundef)

/-- Whether the props walk of a single schema level can assign target key
`k`: either `k` is listed (not skipped) and its JSON key is present in the
json, or the level has a `*` entry, `k` is unlisted and unaliased there,
and `k` itself is present in the json. -/
def levelTouches (props : List (String × PDef)) (json : Obj) (k : String) : Bool :=
  (match props.lookup k with
   | some pd => !isFalseP pd && objHas json (jsonAttrOf (canonP pd) k)
   | none => false) ||
  ((props.lookup "*").isSome && (props.lookup k).isNone &&
    !schemaHasAliasM props k && objHas json k)

/-- Whether any level of the `extends` chain can assign target key `k`. -/
def chainTouches : SSchema → Obj → String → Bool
  | .mk props ext, json, k =>
    (match ext with
     | some p => chainTouches p json k
     | none => false) || levelTouches props json k

/-- Well-formedness every schema produced from a JS object literal has:
no duplicate property names at any level. -/
def schemaWF : SSchema → Prop
  | .mk props ext =>
    (props.map Prod.fst).Nodup ∧
    (match ext with
     | some p => schemaWF p
     | none => True)

/-! ### `parallel` (src/serializr.js:29-51)

`parallel(ar, processor, cb)` issues one continuation per element and
aggregates.  The aggregator is modelled as a state machine whose events are
`(idx, result)` pairs — the element callbacks — arriving in an arbitrary
order. -/

/-- Aggregator state of one `parallel` call: `n = ar.length`, `left` the
countdown, `results` the sparse `resultArray`, `failed` the error latch,
`fired` the invocations of the aggregate callback `cb`. -/
structure AggSt where
  n : Nat
  left : Int
  results : List (Nat × Value)
  failed : Bool
  fired : List (Except String (List (Option Value)))

/-- The dense reading of the sparse `resultArray` handed to `cb`. -/
def materializeAgg (n : Nat) (rs : List (Nat × Value)) : List (Option Value) :=
  (List.range n).map (fun i => rs.lookup i)

/-- `processorCb` (src/serializr.js:36-47): an error fires `cb(err)` once
(`failed` latch, no decrement); a success stores at `idx`, decrements `left`
and fires `cb(null, resultArray)` when `left` hits zero. -/
def aggStep (s : AggSt) (ev : Nat × Except String Value) : AggSt :=
  match ev.2 with
  | .error e =>
    if s.failed then s
    else { s with failed := true, fired := s.fired ++ [.error e] }
  | .ok v =>
    let rs := setA s.results ev.1 v
    let left' := s.left - 1
    if left' = 0 then
      { s with results := rs, left := left',
               fired := s.fired ++ [.ok (materializeAgg s.n rs)] }
    else { s with results := rs, left := left' }

/-- A whole `parallel` run over `n` elements whose callbacks fire as the
event list `evs`: an empty array completes immediately with `cb(null, [])`
(src/serializr.js:31-32). -/
def runAgg (n : Nat) (evs : List (Nat × Except String Value)) : AggSt :=
  if n = 0 then { n := 0, left := 0, results := [], failed := false, fired := [.ok []] }
  else evs.foldl aggStep { n := n, left := (n : Int), results := [], failed := false, fired := [] }

/-- The synchronous part of `list(inner).deserializer`
(src/serializr.js:873-883): a non-array input reports through `done` at once,
an array hands its elements to `parallel`. -/
inductive ListDeserOutcome where
  | immediateError (e : String)
  | runElements (elems : List Value)

def listDeserStep (v : Value) : ListDeserOutcome :=
  match v with
  | .varr elems => .runElements elems
  | _ => .immediateError "[serializr] expected JSON array"

/-- The inputs `inner.deserializer` is invoked on: none at all unless the
input is an array. -/
def listInnerInvocations (v : Value) : List Value :=
  match listDeserStep v with
  | .runElements es => es
  | .immediateError _ => []

end Serializr

namespace Serializr.Pipe

/-!
### Operational model of the asynchronous deserialization pipeline

This models `Context` (src/serializr.js:422-509), `createCallback`,
`await`/`resolve`, `deserializeObjectWithSchema`/`deserializePropsWithSchema`
(361-405) and top-level `deserialize` (341-359) for the prop schemas that
drive the reference-resolution protocol: `true`/`primitive()`,
`identifier()`, `reference(schema)` with the default lookup, and
`object(schema)`.

Schemas live in a numeric environment (`SEnv`); JS object identity (used by
`isAssignableTo`) becomes identity of schema ids.  First-class callbacks are
defunctionalized: a `createCallback` wrapper is a heap entry carrying its
context id, its `fn` payload (a property assignment or the lock's no-op) and
a `fired` once-guard; completion callbacks are `Sink`s.  All built-in
deserializers call back synchronously, so a whole `deserialize` run is a
terminating recursion; a fuel parameter makes this structural (running out
of fuel marks the state crashed — concrete runs get ample fuel).
-/

abbrev Sid := Nat

/-- Prop schemas used by the pipeline.  `refP` and `objP` carry the schema
resolved at construction time. -/
inductive PProp where
  | ptrue
  | primP
  | identP
  | refP (targetSid : Sid)
  | objP (sid : Sid)
  deriving Repr, DecidableEq

structure SchemaDef where
  props : List (String × PProp)
  ext : Option Sid
  deriving Repr, DecidableEq

abbrev SEnv := List (Sid × SchemaDef)

/-- `isAssignableTo` (src/serializr.js:247-254): walk the `extends` chain of
`actual` looking for `expected`; the fuel bounds the chain length. -/
def isAssignableToM (env : SEnv) : Nat → Sid → Sid → Bool
  | 0, _, _ => false
  | fuel+1, actual, expected =>
    if actual = expected then true
    else
      match env.lookup actual with
      | some d =>
        match d.ext with
        | some p => isAssignableToM env fuel p expected
        | none => false
      | none => false

/-- Deserialized values: primitives, instances (heap ids), arrays of
instances (the value handed to an array-`deserialize` completion). -/
inductive DValue where
  | prim (v : Value)
  | objI (oid : Nat)
  | arrI (elems : List DValue)

/-- A node-style callback invocation `(err, value)`. -/
abbrev CArg := Option String × Option DValue

/-- Defunctionalized completion targets. -/
inductive Sink where
  | userCb
  | guardedNoop
  | wrapperS (wid : Nat)
  | aggSlot (aggId : Nat) (idx : Nat)
  deriving Repr, DecidableEq

/-- The `fn` captured by a `createCallback` wrapper: the property assignment
of src/serializr.js:398-400, or the lock's `GUARDED_NOOP`. -/
inductive WFn where
  | assignP (oid : Nat) (propName : String)
  | noopF
  deriving Repr, DecidableEq

structure Wrapper where
  ctxId : Nat
  fn : WFn
  fired : Bool
  deriving Repr, DecidableEq

/-- One entry of `pendingRefs[uuid]`: the awaiter's model schema and its
callback wrapper. -/
structure PendRef where
  sid : Sid
  wid : Nat
  deriving Repr, DecidableEq

/-- A `Context` (src/serializr.js:422-441).  As in the source, a non-root
context's `rootContext` is its immediate parent (line 438). -/
structure CtxR where
  parentId : Option Nat
  rootId : Nat
  schemaSid : Sid
  pc : Int
  prc : Int
  hasError : Bool
  pendingRefs : List (String × List PendRef)
  resolvedRefs : List (String × List (Sid × Nat))
  targetOid : Option Nat
  onReady : Sink

/-- One `parallel` aggregator (for array-shaped `deserialize`). -/
structure AggR where
  n : Nat
  left : Int
  results : List (Nat × DValue)
  failed : Bool
  sink : Sink

/-- Global state of a deserialization run. -/
structure St where
  env : SEnv
  ctxs : List (Nat × CtxR)
  wrappers : List (Nat × Wrapper)
  aggs : List (Nat × AggR)
  heap : List (Nat × List (String × DValue))
  userCalls : List CArg
  crashed : Option String
  nextId : Nat

def getCtx (st : St) (cid : Nat) : Option CtxR := st.ctxs.lookup cid

def setCtx (st : St) (cid : Nat) (c : CtxR) : St :=
  { st with ctxs := setA st.ctxs cid c }

/-- A thrown invariant / TypeError: the first one aborts the run. -/
def crash (st : St) (msg : String) : St :=
  if st.crashed.isSome then st else { st with crashed := some msg }

/-- JS property-key coercion for identifier values. -/
def keyOfValue : Value → String
  | .vnum n => toString n
  | .vstr s => s
  | .vbool b => if b then "true" else "false"
  | .vnull => "null"
  | .vundef => "undefined"
  | .vdate _ => "[date]"
  | .vobj _ => "[object Object]"
  | .varr _ => "[array]"

/-- The identifier keys enumerated by the unresolvable-references error:
exactly those whose pending list is non-empty (src/serializr.js:458-460). -/
def pendingKeys (prs : List (String × List PendRef)) : List String :=
  (prs.filter (fun kv => !kv.2.isEmpty)).map Prod.fst

/-- The unresolvable-references error message (src/serializr.js:456-462). -/
def unresolvableMsg (prs : List (String × List PendRef)) : String :=
  "Unresolvable references in json: \"" ++
    String.intercalate "\", \"" (pendingKeys prs) ++ "\""

/-- `this.target` as a completion value. -/
def targetDV (c : CtxR) : Option DValue :=
  match c.targetOid with
  | some oid => some (.objI oid)
  | none => some (.prim .vnull)

/-- Run a wrapper's `fn` on the callback value. -/
def applyWFn (st : St) (fn : WFn) (v : Option DValue) : St :=
  match fn with
  | .noopF => st
  | .assignP oid name =>
    { st with heap := updA st.heap oid (fun flds => setA flds name (v.getD (.prim .vundef))) }

/-- One invocation of a `createCallback` wrapper
(src/serializr.js:442-468), returning the updated state and the
`onReadyCb` invocations it performs (dispatched by the caller).

* calling a fired wrapper violates the `once` invariant;
* an error latches `hasError` and fires `onReadyCb(err)` — unless already
  latched, in which case it is absorbed;
* a success on an unlatched context runs `fn(value)` and decrements
  `pendingCallbacks`; when the count reaches `pendingRefsCount` the context
  settles: with pending refs outstanding, `onReadyCb` receives the
  unresolvable-references error (note: `hasError` is *not* set on this
  path), otherwise `onReadyCb(null, target)`. -/
def fireLocal (st : St) (wid : Nat) (arg : CArg) : St × List (Sink × CArg) :=
  if st.crashed.isSome then (st, [])
  else
    match st.wrappers.lookup wid with
    | none => (crash st "unknown wrapper", [])
    | some w =>
      if w.fired then (crash st "[serializr] callback was invoked twice", [])
      else
        let st1 := { st with wrappers := setA st.wrappers wid { w with fired := true } }
        match getCtx st1 w.ctxId with
        | none => (crash st1 "unknown context", [])
        | some c =>
          match arg.1 with
          | some err =>
            if c.hasError then (st1, [])
            else (setCtx st1 w.ctxId { c with hasError := true }, [(c.onReady, (some err, none))])
          | none =>
            if c.hasError then (st1, [])
            else
              let st2 := applyWFn st1 w.fn arg.2
              let pc' := c.pc - 1
              let st3 := setCtx st2 w.ctxId { c with pc := pc' }
              if pc' = c.prc then
                if c.prc > 0 then
                  (st3, [(c.onReady, (some (unresolvableMsg c.pendingRefs), none))])
                else (st3, [(c.onReady, (none, targetDV c))])
              else (st3, [])

/-- One invocation of a `parallel` element callback (`processorCb` bound to
`idx`, src/serializr.js:36-47). -/
def aggLocal (st : St) (aggId idx : Nat) (arg : CArg) : St × List (Sink × CArg) :=
  if st.crashed.isSome then (st, [])
  else
    match st.aggs.lookup aggId with
    | none => (crash st "unknown aggregator", [])
    | some a =>
      match arg.1 with
      | some err =>
        if a.failed then (st, [])
        else
          ({ st with aggs := setA st.aggs aggId { a with failed := true } },
            [(a.sink, (some err, none))])
      | none =>
        let rs := setA a.results idx (arg.2.getD (.prim .vundef))
        let left' := a.left - 1
        let st1 := { st with aggs := setA st.aggs aggId { a with results := rs, left := left' } }
        if left' = 0 then
          (st1, [(a.sink,
            (none, some (.arrI ((List.range a.n).map (fun i => (rs.lookup i).getD (.prim .vundef))))))])
        else (st1, [])

/-- `createCallback` allocation: `pendingCallbacks++` plus a fresh unfired
wrapper on the given context. -/
def newWrapper (st : St) (ctxId : Nat) (fn : WFn) : St × Nat :=
  let wid := st.nextId
  match st.ctxs.lookup ctxId with
  | none => (crash st "unknown context", wid)
  | some c =>
    ({ st with
        nextId := wid + 1,
        wrappers := st.wrappers ++ [(wid, { ctxId := ctxId, fn := fn, fired := false })],
        ctxs := setA st.ctxs ctxId { c with pc := c.pc + 1 } }, wid)

/-- The fall-through of `Context.prototype.await`: `pendingRefsCount++` and
enqueue the awaiter (src/serializr.js:481-488). -/
def enqueuePending (st : St) (ctxId : Nat) (awaiterSid : Sid) (key : String) (wid : Nat) : St :=
  match getCtx st ctxId with
  | none => crash st "unknown context"
  | some c =>
    setCtx st ctxId
      { c with prc := c.prc + 1,
               pendingRefs := pushA c.pendingRefs key { sid := awaiterSid, wid := wid } }

def vobjGet (json : Value) (k : String) : Value :=
  match json with
  | .vobj fs => (fs.lookup k).getD (.vundef)
  | _ => (.vundef)

/-- Deliver pending `onReadyCb` invocations to their sinks, in order;
`wrapperS`/`aggSlot` sinks cascade. -/
def dispatchCalls : Nat → St → List (Sink × CArg) → St
  | _, st, [] => st
  | 0, st, _ :: _ => crash st "out of fuel"
  | fuel+1, st, (s, arg) :: rest =>
    if st.crashed.isSome then st
    else
      match s with
      | .userCb => dispatchCalls fuel { st with userCalls := st.userCalls ++ [arg] } rest
      | .guardedNoop =>
        match arg.1 with
        | some err => crash st ("Error: " ++ err)
        | none => dispatchCalls fuel st rest
      | .wrapperS wid =>
        let p := fireLocal st wid arg
        dispatchCalls fuel p.1 (p.2 ++ rest)
      | .aggSlot aggId idx =>
        let p := aggLocal st aggId idx arg
        dispatchCalls fuel p.1 (p.2 ++ rest)

/-- The awaiter-firing loop of `Context.prototype.resolve`
(src/serializr.js:499-508), given the pending entries in reverse order:
assignable entries are spliced out, `pendingRefsCount` is decremented and
the awaiter's callback fired with the published value. -/
def resolveLoop : Nat → St → Nat → Sid → String → Nat → List PendRef → St
  | 0, st, _, _, _, _, _ => crash st "out of fuel"
  | _, st, _, _, _, _, [] => st
  | fuel+1, st, ctxId, pubSid, key, oid, e :: rest =>
    if st.crashed.isSome then st
    else if isAssignableToM st.env (st.env.length + 1) pubSid e.sid then
      match getCtx st ctxId with
      | none => crash st "unknown context"
      | some c =>
        let c' := { c with
          pendingRefs := updA c.pendingRefs key (fun es => es.filter (fun x => x.wid ≠ e.wid)),
          prc := c.prc - 1 }
        let st1 := setCtx st ctxId c'
        let p := fireLocal st1 e.wid (none, some (.objI oid))
        let st2 := dispatchCalls fuel p.1 p.2
        resolveLoop fuel st2 ctxId pubSid key oid rest
    else resolveLoop fuel st ctxId pubSid key oid rest

/-- `Context.prototype.resolve` (src/serializr.js:492-509): record the
published `(modelSchema, value)` under the key, then fire every assignable
pending awaiter (iterating the list in reverse), decrementing
`pendingRefsCount` for each. -/
def resolveOp : Nat → St → Nat → Sid → String → Nat → St
  | 0, st, _, _, _, _ => crash st "out of fuel"
  | fuel+1, st, ctxId, pubSid, key, oid =>
    if st.crashed.isSome then st
    else
      match getCtx st ctxId with
      | none => crash st "unknown context"
      | some c =>
        if c.parentId.isSome then crash st "[serializr] Illegal State"
        else
          let c' := { c with resolvedRefs := pushA c.resolvedRefs key (pubSid, oid) }
          let st1 := setCtx st ctxId c'
          match c'.pendingRefs.lookup key with
          | none => st1
          | some entries => resolveLoop fuel st1 ctxId pubSid key oid entries.reverse

/-- `Context.prototype.await` (src/serializr.js:472-489): resolve
immediately from `resolvedRefs` when an assignable publication exists,
otherwise enqueue the awaiter. -/
def awaitOp : Nat → St → Nat → Sid → String → Nat → St
  | 0, st, _, _, _, _ => crash st "out of fuel"
  | fuel+1, st, ctxId, awaiterSid, key, wid =>
    if st.crashed.isSome then st
    else
      match getCtx st ctxId with
      | none => crash st "unknown context"
      | some c =>
        if c.parentId.isSome then crash st "[serializr] Illegal State"
        else
          match c.resolvedRefs.lookup key with
          | some resolved =>
            match resolved.find? (fun r => isAssignableToM st.env (st.env.length + 1) r.1 awaiterSid) with
            | some r =>
              let p := fireLocal st wid (none, some (.objI r.2))
              dispatchCalls fuel p.1 p.2
            | none => enqueuePending st ctxId awaiterSid key wid
          | none => enqueuePending st ctxId awaiterSid key wid

/-- The mutually recursive portion of the deserializer, defunctionalized so
the recursion is structural in the fuel:

* `propR ctxId pd jv wid` — invoke one prop schema's deserializer with
  callback `wid` (`primitive`: src/serializr.js:572-577; `identifier`:
  613-631; `reference` with the default lookup: 824-838; `object`: 747-752);
* `objR parent sid json cb` — `deserializeObjectWithSchema` (361-374);
* `schemaR ctxId sid json` — the `extends`-chain walk of
  `deserializePropsWithSchema` (376-379), outer-first;
* `plistR ctxId props json` — the props iteration (379-404). -/
inductive Req where
  | propR (ctxId : Nat) (pd : PProp) (jv : Value) (wid : Nat)
  | objR (parentCtx : Option Nat) (sid : Sid) (json : Value) (cbSink : Option Sink)
  | schemaR (ctxId : Nat) (sid : Sid) (json : Value)
  | plistR (ctxId : Nat) (props : List (String × PProp)) (json : Value)

/-- Interpreter of `Req`.  For `objR` with null/undefined json,
`callback(null, null)` is invoked directly (a missing callback is a
TypeError) and no Context or instance is created; otherwise a Context is
created (its `rootContext` is the parent context, or itself when root), the
factory produces the target instance, a lock callback is taken, the props
are walked — each property callback created on the *root* context with an
assignment `fn` (line 398) — and the lock is released. -/
def exec : Nat → St → Req → St
  | 0, st, _ => crash st "out of fuel"
  | fuel+1, st, req =>
    if st.crashed.isSome then st
    else
      match req with
      | .propR ctxId pd jv wid =>
        match getCtx st ctxId with
        | none => crash st "unknown context"
        | some c =>
          match pd with
          | .ptrue | .primP =>
            if isPrimitive jv then
              let p := fireLocal st wid (none, some (.prim jv))
              dispatchCalls fuel p.1 p.2
            else
              let p := fireLocal st wid
                (some ("[serializr] this value is not primitive: " ++ jsShow jv), none)
              dispatchCalls fuel p.1 p.2
          | .identP =>
            if isPrimitive jv then
              let st1 := resolveOp fuel st c.rootId c.schemaSid (keyOfValue jv) (c.targetOid.getD 0)
              let p := fireLocal st1 wid (none, some (.prim jv))
              dispatchCalls fuel p.1 p.2
            else
              let st1 := resolveOp fuel st c.rootId c.schemaSid (keyOfValue .vundef) (c.targetOid.getD 0)
              let p := fireLocal st1 wid
                (some ("[serializr] this value is not primitive: " ++ jsShow jv), none)
              dispatchCalls fuel p.1 p.2
          | .refP targetSid =>
            match jv with
            | .vnull =>
              let p := fireLocal st wid (none, some (.prim .vnull))
              dispatchCalls fuel p.1 p.2
            | .vundef =>
              let p := fireLocal st wid (none, some (.prim .vundef))
              dispatchCalls fuel p.1 p.2
            | v => awaitOp fuel st c.rootId targetSid (keyOfValue v) wid
          | .objP sid =>
            match jv with
            | .vnull =>
              let p := fireLocal st wid (none, some (.prim .vnull))
              dispatchCalls fuel p.1 p.2
            | .vundef =>
              let p := fireLocal st wid (none, some (.prim .vundef))
              dispatchCalls fuel p.1 p.2
            | v => exec fuel st (.objR (some ctxId) sid v (some (.wrapperS wid)))
      | .objR parentCtx sid json cbSink =>
        match json with
        | .vnull =>
          match cbSink with
          | none => crash st "TypeError: callback is not a function"
          | some s => dispatchCalls fuel st [(s, (none, some (.prim .vnull)))]
        | .vundef =>
          match cbSink with
          | none => crash st "TypeError: callback is not a function"
          | some s => dispatchCalls fuel st [(s, (none, some (.prim .vnull)))]
        | _ =>
          let cid := st.nextId
          let oid := st.nextId + 1
          let ctx : CtxR :=
            { parentId := parentCtx, rootId := parentCtx.getD cid, schemaSid := sid,
              pc := 0, prc := 0, hasError := false,
              pendingRefs := [], resolvedRefs := [],
              targetOid := some oid, onReady := cbSink.getD .guardedNoop }
          let st1 := { st with
            nextId := oid + 1,
            ctxs := st.ctxs ++ [(cid, ctx)],
            heap := st.heap ++ [(oid, [])] }
          let pr := newWrapper st1 cid .noopF
          let st2 := exec fuel pr.1 (.schemaR cid sid json)
          let p := fireLocal st2 pr.2 (none, none)
          dispatchCalls fuel p.1 p.2
      | .schemaR ctxId sid json =>
        match st.env.lookup sid with
        | none => crash st "unknown schema"
        | some d =>
          let st1 :=
            match d.ext with
            | some p => exec fuel st (.schemaR ctxId p json)
            | none => st
          exec fuel st1 (.plistR ctxId d.props json)
      | .plistR ctxId props json =>
        match props with
        | [] => st
        | kp :: rest =>
          match getCtx st ctxId with
          | none => crash st "unknown context"
          | some c =>
            match json with
            | .vobj fields =>
              if (fields.lookup kp.1).isSome then
                match c.targetOid with
                | none => crash st "no target"
                | some tid =>
                  let pr := newWrapper st c.rootId (.assignP tid kp.1)
                  let st1 := exec fuel pr.1 (.propR ctxId kp.2 (vobjGet json kp.1) pr.2)
                  exec fuel st1 (.plistR ctxId rest json)
              else exec fuel st (.plistR ctxId rest json)
            | _ => crash st "TypeError: cannot use 'in' operator on non-object"

/-- `deserializeObjectWithSchema`, with the returned (synchronously created)
instance id: `undefined` on the null-json path, otherwise the id the factory
allocates. -/
def deserObj (fuel : Nat) (st : St) (parentCtx : Option Nat) (sid : Sid)
    (json : Value) (cbSink : Option Sink) : St × Option Nat :=
  match json with
  | .vnull => (exec fuel st (.objR parentCtx sid json cbSink), none)
  | .vundef => (exec fuel st (.objR parentCtx sid json cbSink), none)
  | _ => (exec fuel st (.objR parentCtx sid json cbSink), some (st.nextId + 1))

/-- The element loop of array-shaped `deserialize`
(src/serializr.js:345-356): each element is deserialized with a *null*
parent context — its own root — and its `itemDone` is the `parallel`
element callback. -/
def deserElems (fuel : Nat) : St → Sid → List Value → Nat → Nat → St × List Nat
  | st, _, [], _, _ => (st, [])
  | st, sid, e :: rest, aggId, idx =>
    let p := deserObj fuel st none sid e (some (.aggSlot aggId idx))
    let q := deserElems fuel p.1 sid rest aggId (idx + 1)
    (q.1, (p.2.getD 0) :: q.2)

/-- Top-level `deserialize(schema, json, callback, ...)`
(src/serializr.js:341-359). -/
def topDeserialize (fuel : Nat) (st : St) (sid : Sid) (json : Value)
    (cbSink : Option Sink) : St × Option DValue :=
  if st.crashed.isSome then (st, none)
  else if (st.env.lookup sid).isNone then
    (crash st "[serializr] first argument should be model schema", none)
  else
    match json with
    | .varr elems =>
      let aggId := st.nextId
      let agg : AggR :=
        { n := elems.length, left := (elems.length : Int),
          results := [], failed := false, sink := cbSink.getD .guardedNoop }
      let st1 := { st with nextId := aggId + 1, aggs := st.aggs ++ [(aggId, agg)] }
      if elems.length = 0 then
        (dispatchCalls fuel st1 [(agg.sink, (none, some (.arrI [])))], some (.arrI []))
      else
        let p := deserElems fuel st1 sid elems aggId 0
        (p.1, some (.arrI (p.2.map .objI)))
    | j =>
      let p := deserObj fuel st none sid j cbSink
      (p.1, p.2.map .objI)

/-- A fresh run state over a schema environment. -/
def mkSt (env : SEnv) : St :=
  { env := env, ctxs := [], wrappers := [], aggs := [], heap := [],
    userCalls := [], crashed := none, nextId := 0 }

/-- A complete `deserialize(schema, json, cb)` run with a user completion
callback. -/
def runDeserialize (env : SEnv) (sid : Sid) (json : Value) : St :=
  (topDeserialize 64 (mkSt env) sid json (some .userCb)).1

/-- Read a property of a heap instance. -/
def heapProp (st : St) (oid : Nat) (name : String) : Option DValue :=
  ((st.heap.lookup oid).getD []).lookup name

/-!
### Concrete scenarios

Schema ids and heap ids are concrete; each scenario is evaluated by the
interpreter above with ample fuel.
-/

/-- A self-referential schema `S = {a: reference(S), b: primitive()}`
(schema id 0). -/
def c3Env : SEnv := [(0, { props := [("a", .refP 0), ("b", .primP)], ext := none })]

def c3Json : Value := .vobj [("a", .vnum 7), ("b", .vstr "x")]

/-- `deserialize(S, {a: 7, b: "x"}, cb)` — no object publishes identifier 7,
so the run settles with the unresolvable-references error. -/
def c3St : St := runDeserialize c3Env 0 c3Json

/-- A late `rootContext.resolve(S, 7, target)` *after* the settlement — the
Context surface exposed to custom deserializers permits exactly this call.
(Context id 0 is the root, heap id 1 its target.) -/
def c3LateSt : St := resolveOp 64 c3St 0 0 "7" 1

/-- A state with the error latch set (and one unfired wrapper, id 2). -/
def c4Ctx : CtxR :=
  { parentId := none, rootId := 0, schemaSid := 0, pc := 2, prc := 1, hasError := false,
    pendingRefs := [("99", [{ sid := 0, wid := 1 }])], resolvedRefs := [],
    targetOid := some 10, onReady := .userCb }

/-- The root state of `deserialize(Post, {author: 99, msg: "hi"}, cb)` at the
moment the lock callback (wrapper 2) fires: the `msg` callback has completed,
the `author` reference awaits identifier 99 (wrapper 1), so
`pendingCallbacks = 2` and `pendingRefsCount = 1`. -/
def c4St : St :=
  { env := [], ctxs := [(0, c4Ctx)],
    wrappers :=
      [(1, { ctxId := 0, fn := .assignP 10 "author", fired := false }),
       (2, { ctxId := 0, fn := .noopF, fired := false })],
    aggs := [], heap := [(10, [("msg", .prim (.vstr "hi"))])],
    userCalls := [], crashed := none, nextId := 3 }

/-- `c4St` with the error latch already set. -/
def c3AbsorbSt : St := { c4St with ctxs := [(0, { c4Ctx with hasError := true })] }

/-- A single schema carrying an `identifier()` prop, a `reference` prop to
itself (default lookup) and two primitives (schema id 5) — the union schema
of spec scenario 5. -/
def unionEnv : SEnv :=
  [(5, { props := [("uuid", .identP), ("name", .primP), ("author", .refP 5), ("msg", .primP)],
         ext := none })]

/-- Publisher before referrer: `[{uuid: 1, name: "X"}, {author: 1, msg: "hi"}]`. -/
def unionArrJson : Value := .varr
  [.vobj [("uuid", .vnum 1), ("name", .vstr "X")],
   .vobj [("author", .vnum 1), ("msg", .vstr "hi")]]

/-- Referrer before publisher. -/
def unionArrJsonRev : Value := .varr
  [.vobj [("author", .vnum 1), ("msg", .vstr "hi")],
   .vobj [("uuid", .vnum 1), ("name", .vstr "X")]]

/-- `User` (id 1), `Post` (id 2), and two wrapper schemas nesting a user and
a post under a single root: publisher-first (id 3) and referrer-first
(id 4). -/
def nestEnv : SEnv :=
  [(1, { props := [("uuid", .identP), ("name", .primP)], ext := none }),
   (2, { props := [("author", .refP 1), ("msg", .primP)], ext := none }),
   (3, { props := [("u", .objP 1), ("p", .objP 2)], ext := none }),
   (4, { props := [("p", .objP 2), ("u", .objP 1)], ext := none })]

def nestJson : Value := .vobj
  [("u", .vobj [("uuid", .vnum 1), ("name", .vstr "X")]),
   ("p", .vobj [("author", .vnum 1), ("msg", .vstr "hi")])]

end Serializr.Pipe

namespace Serializr

/-! ## Helper lemmas -/

/-- `isPrimitive` agrees with the claim's characterisation of a primitive. -/
theorem isPrimitive_iff_claimPrimitive (v : Value) :
    isPrimitive v = true ↔ claimPrimitive v := by
  cases v <;> simp [isPrimitive, typeofV, claimPrimitive]

theorem lookup_map_set_ne {κ α : Type} [BEq κ] [LawfulBEq κ]
    (l : List (κ × α)) (k : κ) (v : α) (j : κ) (hj : j ≠ k) :
    (l.map (fun kv => if kv.1 == k then (k, v) else kv)).lookup j = l.lookup j := by
  induction l with
  | nil => rfl
  | cons kv tl ih =>
    rcases kv with ⟨k1, v1⟩
    simp only [List.map_cons]
    by_cases h : k1 = k
    · rw [if_pos (beq_iff_eq.mpr h)]
      rw [List.lookup_cons, List.lookup_cons]
      have hjk : (j == k) = false := beq_eq_false_iff_ne.mpr hj
      have hjk1 : (j == k1) = false := beq_eq_false_iff_ne.mpr (fun hh => hj (hh.trans h))
      simp only [hjk, hjk1]
      exact ih
    · rw [if_neg (by simp [h])]
      rw [List.lookup_cons, List.lookup_cons]
      by_cases hj1 : j = k1
      · simp only [beq_iff_eq.mpr hj1]
      · simp only [beq_eq_false_iff_ne.mpr hj1]
        exact ih

theorem lookup_map_set_self {κ α : Type} [BEq κ] [LawfulBEq κ]
    (l : List (κ × α)) (k : κ) (v : α) (hs : (l.lookup k).isSome = true) :
    (l.map (fun kv => if kv.1 == k then (k, v) else kv)).lookup k = some v := by
  induction l with
  | nil => simp at hs
  | cons kv tl ih =>
    rcases kv with ⟨k1, v1⟩
    simp only [List.map_cons]
    by_cases h : k1 = k
    · rw [if_pos (beq_iff_eq.mpr h)]
      rw [List.lookup_cons]
      simp
    · rw [if_neg (by simp [h])]
      rw [List.lookup_cons]
      have h2 : (k == k1) = false := beq_eq_false_iff_ne.mpr (fun he => h he.symm)
      rw [List.lookup_cons] at hs
      simp only [h2] at hs ⊢
      exact ih hs

theorem lookup_append_single {κ α : Type} [BEq κ] [LawfulBEq κ] [DecidableEq κ]
    (l : List (κ × α)) (k : κ) (v : α) (j : κ) (hn : l.lookup k = none) :
    (l ++ [(k, v)]).lookup j = if j = k then some v else l.lookup j := by
  induction l with
  | nil =>
    by_cases h : j = k
    · simp [List.lookup_cons, beq_iff_eq.mpr h, h]
    · simp [List.lookup_cons, beq_eq_false_iff_ne.mpr h, h]
  | cons kv tl ih =>
    rcases kv with ⟨k1, v1⟩
    rw [List.lookup_cons] at hn
    simp only [List.cons_append]
    rw [List.lookup_cons, List.lookup_cons]
    by_cases h : j = k1
    · have hb : (j == k1) = true := beq_iff_eq.mpr h
      by_cases hk : j = k
      · exfalso
        have : (k == k1) = true := beq_iff_eq.mpr (hk ▸ h)
        simp [this] at hn
      · simp only [hb, if_neg hk]
    · have hb : (j == k1) = false := beq_eq_false_iff_ne.mpr h
      have hn' : tl.lookup k = none := by
        by_cases hk : k = k1
        · simp [beq_iff_eq.mpr hk] at hn
        · simpa [beq_eq_false_iff_ne.mpr hk] using hn
      simp only [hb]
      exact ih hn'

/-- The fundamental lookup law of JS-style keyed assignment. -/
theorem setA_lookup {κ α : Type} [BEq κ] [LawfulBEq κ] [DecidableEq κ]
    (l : List (κ × α)) (k : κ) (v : α) (j : κ) :
    (setA l k v).lookup j = if j = k then some v else l.lookup j := by
  unfold setA
  cases hs : (l.lookup k).isSome with
  | true =>
    simp only [hs, if_true]
    by_cases h : j = k
    · rw [if_pos h, h]
      exact lookup_map_set_self l k v hs
    · rw [if_neg h]
      exact lookup_map_set_ne l k v j h
  | false =>
    have hn : l.lookup k = none := by
      cases h : l.lookup k
      · rfl
      · rw [h] at hs; simp at hs
    simp only [hs, if_false, Bool.false_eq_true]
    exact lookup_append_single l k v j hn

theorem objSet_lookup (o : Obj) (k : String) (v : Value) (j : String) :
    (objSet o k v).lookup j = if j = k then some v else o.lookup j :=
  setA_lookup o k v j

theorem lookup_isSome_of_mem {κ α : Type} [BEq κ] [LawfulBEq κ]
    (l : List (κ × α)) (kv : κ × α) :
    kv ∈ l → (l.lookup kv.1).isSome = true := by
  induction l with
  | nil => intro h; simp at h
  | cons hd tl ih =>
    intro h
    rcases hd with ⟨hk, hv⟩
    rcases List.mem_cons.mp h with h | h
    · rw [h]
      simp [List.lookup_cons]
    · rw [List.lookup_cons]
      by_cases he : kv.1 = hk
      · simp [beq_iff_eq.mpr he]
      · simp only [beq_eq_false_iff_ne.mpr he]
        exact ih h

/-! ## C9 — `primitive()` -/

/-- C9: `primitive()`'s serializer returns the value unchanged exactly when
it is primitive (null, or any value that is neither an object nor a
function) and fails on every other value; its deserializer symmetrically
reports an error for non-primitive JSON values and otherwise hands back the
identical value; null is accepted unchanged in both directions. -/
theorem C9_primitive_exact (v : Value) :
    (claimPrimitive v → primitiveSerializer v = .ok v ∧ primitiveDeserializer v = .ok v) ∧
    (¬ claimPrimitive v →
      (∃ e, primitiveSerializer v = .error e) ∧ (∃ e, primitiveDeserializer v = .error e)) ∧
    primitiveSerializer .vnull = .ok .vnull ∧ primitiveDeserializer .vnull = .ok .vnull := by
  refine ⟨?_, ?_, rfl, rfl⟩
  · intro h
    have hp : isPrimitive v = true := (isPrimitive_iff_claimPrimitive v).mpr h
    exact ⟨by simp [primitiveSerializer, hp], by simp [primitiveDeserializer, hp]⟩
  · intro h
    have hp : isPrimitive v = false := by
      cases hb : isPrimitive v
      · rfl
      · exact absurd ((isPrimitive_iff_claimPrimitive v).mp hb) h
    exact ⟨⟨"[serializr] this value is not primitive: " ++ jsShow v,
            by simp [primitiveSerializer, hp]⟩,
          ⟨"[serializr] this value is not primitive: " ++ jsShow v,
            by simp [primitiveDeserializer, hp]⟩⟩

/-- C9 witness: a number passes both directions unchanged, an object value
makes the serializer fail, null passes the deserializer. -/
theorem C9_primitive_exact_witness :
    primitiveSerializer (.vnum 3) = .ok (.vnum 3) ∧
    (∃ e, primitiveSerializer (.vobj []) = .error e) ∧
    primitiveDeserializer .vnull = .ok .vnull := by
  refine ⟨((C9_primitive_exact (.vnum 3)).1 (Or.inr ⟨by decide, by decide⟩)).1,
         ((C9_primitive_exact (.vobj [])).2.1 ?_).1,
         (C9_primitive_exact .vnull).2.2.2⟩
  rintro (h | ⟨h1, _⟩)
  · exact Value.noConfusion h
  · exact h1 rfl

/-! ## C1 — the exported `setDefaultModelSchema` -/

/-- C1: the exported API map binds the name `setDefaultModelSchema` to the
function `getDefaultModelSchema` (src/serializr.js:956), so the publicly
exposed operation never writes the association: for any registry it leaves
the registry untouched, and for a fresh class the subsequent
`getDefaultModelSchema` returns nothing rather than the supplied schema.
The internal `setDefaultModelSchema` (lines 214-217) does store it — the
export is the slip. -/
theorem C1_exported_setter_is_getter :
    (∀ (reg : Registry) (c s : Nat), (exportedSetDefaultModelSchema reg c s).1 = reg) ∧
    (exportedSetDefaultModelSchema [] 0 1).2 = none ∧
    getDefaultModelSchemaM (exportedSetDefaultModelSchema [] 0 1).1 (.jclass 0) = none ∧
    getDefaultModelSchemaM (exportedSetDefaultModelSchema [] 0 1).1 (.jclass 0) ≠ some 1 ∧
    getDefaultModelSchemaM (setDefaultModelSchemaM [] 0 1).1 (.jclass 0) = some 1 := by
  exact ⟨fun _ _ _ => rfl, rfl, rfl, by simp [exportedSetDefaultModelSchema,
    getDefaultModelSchemaM], rfl⟩

/-! ## C2 — `object(schemaRef)` resolves eagerly -/

/-- C2 counterexample: `object(schemaRef)` invoked while `schemaRef` has no
resolvable model schema (a class with no registered default, or an
undefined binding from a cyclic import) throws its invariant at
construction time — resolution is not deferred to the first
serializer/deserializer call. -/
theorem C2_object_eager_counterexample :
    objectCtor [] (.jclass 0) = .error "[serializr] expected modelSchema, got undefined" ∧
    objectCtor [] .jnull = .error "[serializr] expected modelSchema, got undefined" :=
  ⟨rfl, rfl⟩

/-- C2 amended: `object(schemaRef)` resolves `schemaRef` through
`getDefaultModelSchema` at the moment `object()` itself is invoked — it
succeeds exactly when the reference resolves then, capturing the resolved
schema for the serializer/deserializer closures, and throws otherwise. -/
theorem C2_object_resolves_at_construction (reg : Registry) (ref : JThing) :
    ((objectCtor reg ref).isOk ↔ (getDefaultModelSchemaM reg ref).isSome) ∧
    (∀ s, getDefaultModelSchemaM reg ref = some s → objectCtor reg ref = .ok s) := by
  constructor
  · cases h : getDefaultModelSchemaM reg ref <;> simp [objectCtor, h, Except.isOk, Except.toBool]
  · intro s h
    simp [objectCtor, h]

/-- C2 witness: with schema 7 registered for class 0, `object(class0)`
captures schema 7 at construction. -/
theorem C2_object_resolves_at_construction_witness :
    objectCtor [(0, 7)] (.jclass 0) = .ok 7 :=
  (C2_object_resolves_at_construction [(0, 7)] (.jclass 0)).2 7 rfl

/-! ## C7 — `list` and `parallel` -/

/-- Invariant of the `parallel` aggregator while strictly fewer than `n`
element callbacks have fired, all successfully: the error latch is off, the
aggregate callback has not fired, `left` counts the remaining elements, and
`resultArray` holds exactly the results of the processed indices. -/
theorem aggFold_progress (n : Nat) (f : Nat → Value) :
    ∀ (evs : List (Nat × Except String Value)) (processed : List Nat) (s : AggSt),
      s.n = n → s.failed = false → s.fired = [] →
      s.left = (n : Int) - processed.length →
      (∀ i, s.results.lookup i = if i ∈ processed then some (f i) else none) →
      (processed ++ evs.map Prod.fst).Nodup →
      (∀ ev ∈ evs, ev.1 < n ∧ ev.2 = .ok (f ev.1)) →
      processed.length + evs.length < n →
      ((evs.foldl aggStep s).n = n ∧
       (evs.foldl aggStep s).failed = false ∧
       (evs.foldl aggStep s).fired = [] ∧
       (evs.foldl aggStep s).left = (n : Int) - (processed.length + evs.length) ∧
       (∀ i, (evs.foldl aggStep s).results.lookup i =
          if i ∈ processed ++ evs.map Prod.fst then some (f i) else none)) := by
  intro evs
  induction evs with
  | nil =>
    intro processed s h1 h2 h3 h4 h5 h6 _ _
    refine ⟨h1, h2, h3, by simpa using h4, by simpa using h5⟩
  | cons ev rest ih =>
    intro processed s h1 h2 h3 h4 h5 h6 h7 h8
    obtain ⟨hlt, hok⟩ := h7 ev (List.mem_cons_self ev rest)
    have hnotmem : ev.1 ∉ processed := by
      intro hm
      simp only [List.map_cons] at h6
      exact (List.disjoint_of_nodup_append h6) hm (List.mem_cons_self _ _)
    have hlen1 : processed.length + 1 < n := by
      simp only [List.length_cons] at h8
      omega
    have hleft : s.left - 1 ≠ 0 := by
      rw [h4]
      intro hcon
      omega
    have hstep : aggStep s ev
        = { s with results := setA s.results ev.1 (f ev.1), left := s.left - 1 } := by
      rcases ev with ⟨i, r⟩
      simp only at hok
      rw [hok]
      simp [aggStep, hleft]
    rw [List.foldl_cons, hstep]
    have hmain := ih (processed ++ [ev.1])
      { s with results := setA s.results ev.1 (f ev.1), left := s.left - 1 }
      h1 h2 h3
      (by
        show s.left - 1 = (n : Int) - ((processed ++ [ev.1]).length : Int)
        rw [h4]
        simp only [List.length_append, List.length_singleton, List.length_cons, List.length_nil]
        push_cast
        ring)
      (by
        intro i
        show (setA s.results ev.1 (f ev.1)).lookup i = _
        rw [setA_lookup, h5 i]
        by_cases hi : i = ev.1
        · simp [hi, hnotmem]
        · simp only [if_neg hi]
          by_cases hm : i ∈ processed
          · simp [hm, List.mem_append, hi]
          · simp [hm, List.mem_append, hi])
      (by
        simp only [List.map_cons] at h6
        rw [List.append_cons] at h6
        exact h6)
      (fun e he => h7 e (List.mem_cons_of_mem ev he))
      (by
        simp only [List.length_append, List.length_singleton, List.length_cons, List.length_nil] at h8 ⊢
        omega)
    refine ⟨hmain.1, hmain.2.1, hmain.2.2.1, ?_, ?_⟩
    · rw [hmain.2.2.2.1]
      simp only [List.length_append, List.length_singleton, List.length_cons, List.length_nil]
      push_cast
      ring
    · intro i
      rw [hmain.2.2.2.2 i]
      simp only [List.map_cons]
      rw [List.append_assoc, List.singleton_append]

/-- C7: `list(inner).deserializer` on a non-array reports through its
continuation at once without ever invoking `inner`; `parallel` completes an
empty array immediately with `[]`; over `n` elements whose callbacks fire
in an arbitrary order (any permutation), the aggregate callback fires
exactly once, after the last element callback, with the deserialization of
input element `k` at index `k`; before all elements have completed (and no
error), the aggregate callback has not fired; a first error fires the
aggregate callback with that error immediately. -/
theorem C7_list_parallel :
    (∀ v : Value, (∀ es, v ≠ .varr es) →
        listDeserStep v = .immediateError "[serializr] expected JSON array" ∧
        listInnerInvocations v = []) ∧
    (runAgg 0 []).fired = [.ok []] ∧
    (∀ (n : Nat) (f : Nat → Value) (evs : List (Nat × Except String Value)),
        evs.Perm ((List.range n).map (fun i => (i, .ok (f i)))) → 0 < n →
        (runAgg n evs).fired = [.ok ((List.range n).map (fun i => some (f i)))]) ∧
    (∀ (n : Nat) (f : Nat → Value) (evs : List (Nat × Except String Value)),
        (evs.map Prod.fst).Nodup → (∀ ev ∈ evs, ev.1 < n ∧ ev.2 = .ok (f ev.1)) →
        evs.length < n → (runAgg n evs).fired = []) ∧
    (∀ (n : Nat) (f : Nat → Value) (evs : List (Nat × Except String Value)) (i : Nat)
        (e : String),
        (evs.map Prod.fst).Nodup → (∀ ev ∈ evs, ev.1 < n ∧ ev.2 = .ok (f ev.1)) →
        evs.length < n → (aggStep (runAgg n evs) (i, .error e)).fired = [.error e]) := by
  have hfold : ∀ (n : Nat) (f : Nat → Value) (evs : List (Nat × Except String Value)),
      (evs.map Prod.fst).Nodup → (∀ ev ∈ evs, ev.1 < n ∧ ev.2 = .ok (f ev.1)) →
      evs.length < n →
      ((runAgg n evs).failed = false ∧ (runAgg n evs).fired = []) := by
    intro n f evs hnd hev hlen
    have hn : n ≠ 0 := by omega
    have h := aggFold_progress n f evs []
      { n := n, left := (n : Int), results := [], failed := false, fired := [] }
      rfl rfl rfl (by simp) (by simp) (by simpa using hnd) hev (by simpa using hlen)
    rw [runAgg, if_neg hn]
    exact ⟨h.2.1, h.2.2.1⟩
  refine ⟨?_, rfl, ?_, ?_, ?_⟩
  · intro v hv
    cases v with
    | varr es => exact absurd rfl (hv es)
    | vnull => exact ⟨rfl, rfl⟩
    | vundef => exact ⟨rfl, rfl⟩
    | vbool b => exact ⟨rfl, rfl⟩
    | vnum m => exact ⟨rfl, rfl⟩
    | vstr s => exact ⟨rfl, rfl⟩
    | vdate ms => exact ⟨rfl, rfl⟩
    | vobj fs => exact ⟨rfl, rfl⟩
  · intro n f evs hperm hn
    have hlen : evs.length = n := by
      have := hperm.length_eq
      simpa using this
    have hev : ∀ ev ∈ evs, ev.1 < n ∧ ev.2 = .ok (f ev.1) := by
      intro ev hm
      have : ev ∈ (List.range n).map (fun i => (i, Except.ok (f i))) := hperm.mem_iff.mp hm
      simp only [List.mem_map, List.mem_range] at this
      obtain ⟨i, hi, he⟩ := this
      rw [← he]
      exact ⟨hi, rfl⟩
    have hfst : (evs.map Prod.fst).Perm (List.range n) := by
      have h2 := hperm.map Prod.fst
      rw [List.map_map] at h2
      have h3 : List.map (Prod.fst ∘ fun i => ((i : Nat), (Except.ok (f i) : Except String Value)))
          (List.range n) = List.range n := by
        exact List.map_id (List.range n)
      rw [h3] at h2
      exact h2
    have hnd : (evs.map Prod.fst).Nodup := hfst.nodup_iff.mpr (List.nodup_range n)
    obtain ⟨init, last, hsplit⟩ :
        ∃ init last, evs = init ++ [last] := by
      rcases List.eq_nil_or_concat evs with h | ⟨init, last, h⟩
      · exfalso
        rw [h] at hlen
        simp at hlen
        omega
      · exact ⟨init, last, by simpa [List.concat_eq_append] using h⟩
    subst hsplit
    have hinitlen : init.length = n - 1 := by
      simp at hlen
      omega
    have hndinit : (init.map Prod.fst).Nodup := by
      rw [List.map_append] at hnd
      exact hnd.of_append_left
    have hinv := aggFold_progress n f init []
      { n := n, left := (n : Int), results := [], failed := false, fired := [] }
      rfl rfl rfl (by simp) (by simp) (by simpa using hndinit)
      (fun e he => hev e (List.mem_append_left _ he))
      (by simp [hinitlen]; omega)
    obtain ⟨hlt2, hok2⟩ := hev last (List.mem_append_right _ (by simp))
    rw [runAgg, if_neg (by omega)]
    rw [List.foldl_append]
    set s' := init.foldl aggStep
      { n := n, left := (n : Int), results := [], failed := false, fired := [] } with hs'
    have hleft' : s'.left = 1 := by
      rw [hinv.2.2.2.1]
      simp [hinitlen]
      omega
    have hres' : ∀ i, s'.results.lookup i =
        if i ∈ init.map Prod.fst then some (f i) else none := by
      intro i
      have := hinv.2.2.2.2 i
      simpa using this
    have hcover : ∀ i, i < n → i = last.1 ∨ i ∈ init.map Prod.fst := by
      intro i hi
      have : i ∈ (init ++ [last]).map Prod.fst := hfst.mem_iff.mpr (List.mem_range.mpr hi)
      rw [List.map_append] at this
      rcases List.mem_append.mp this with h | h
      · exact Or.inr h
      · simp at h
        exact Or.inl h
    rcases last with ⟨li, lr⟩
    simp only at hok2
    rw [List.foldl_cons, List.foldl_nil, hok2]
    simp only [aggStep]
    rw [hleft']
    simp only [hinv.1, hinv.2.1, hinv.2.2.1]
    norm_num
    unfold materializeAgg
    apply List.map_congr_left
    intro i hi
    rw [setA_lookup]
    rcases hcover i (List.mem_range.mp hi) with h | h
    · simp [h]
    · by_cases hil : i = li
      · simp [hil]
      · rw [if_neg hil, hres' i, if_pos h]
  · intro n f evs hnd hev hlen
    exact (hfold n f evs hnd hev hlen).2
  · intro n f evs i e hnd hev hlen
    have h := hfold n f evs hnd hev hlen
    simp [aggStep, h.1, h.2]

/-- C7 witness: two element callbacks firing out of order assemble in input
order and fire the aggregate exactly at the second event; a one-of-two
prefix has not fired; an error fires immediately; a non-array input errors
without touching the elements. -/
theorem C7_list_parallel_witness :
    listDeserStep (.vnum 5) = .immediateError "[serializr] expected JSON array" ∧
    (runAgg 2 [(1, .ok (.vnum 11)), (0, .ok (.vnum 10))]).fired
      = [.ok [some (.vnum 10), some (.vnum 11)]] ∧
    (runAgg 2 [(1, .ok (.vnum 11))]).fired = [] ∧
    (aggStep (runAgg 2 [(1, .ok (.vnum 11))]) (0, .error "E")).fired = [.error "E"] := by
  have hperm : ([(1, .ok (.vnum 11)), (0, .ok (.vnum 10))] :
        List (Nat × Except String Value)).Perm
      ((List.range 2).map (fun i => (i, .ok (Value.vnum (Int.ofNat (10 + i)))))) := by
    have h0 : (List.range 2).map
          (fun i => ((i : Nat), (Except.ok (Value.vnum (Int.ofNat (10 + i))) :
            Except String Value)))
        = [(0, .ok (.vnum 10)), (1, .ok (.vnum 11))] := by rfl
    rw [h0]
    exact List.Perm.swap _ _ _
  have hone : ∀ ev : Nat × Except String Value,
      ev ∈ ([(1, .ok (.vnum 11))] : List (Nat × Except String Value)) →
      ev.1 < 2 ∧ ev.2 = .ok (Value.vnum (Int.ofNat (10 + ev.1))) := by
    intro ev hm
    rw [List.mem_singleton] at hm
    rw [hm]
    exact ⟨by omega, rfl⟩
  refine ⟨(C7_list_parallel.1 (.vnum 5) (fun es h => Value.noConfusion h)).1, ?_, ?_, ?_⟩
  · have h := C7_list_parallel.2.2.1 2 (fun i => Value.vnum (Int.ofNat (10 + i))) _
      hperm (by omega)
    have h2 : (List.range 2).map (fun i => some (Value.vnum (Int.ofNat (10 + i))))
        = [some (.vnum 10), some (.vnum 11)] := by rfl
    rw [← h2]
    exact h
  · exact C7_list_parallel.2.2.2.1 2 (fun i => Value.vnum (Int.ofNat (10 + i))) _
      (by simp) hone (by simp)
  · exact C7_list_parallel.2.2.2.2 2 (fun i => Value.vnum (Int.ofNat (10 + i))) _ 0 "E"
      (by simp) hone (by simp)

/-! ## C6 — round trip of the synchronous prop algebra -/

theorem lookup_eq_none_of_not_mem_keys {κ α : Type} [BEq κ] [LawfulBEq κ]
    (l : List (κ × α)) (k : κ) (h : k ∉ l.map Prod.fst) : l.lookup k = none := by
  induction l with
  | nil => rfl
  | cons hd tl ih =>
    rcases hd with ⟨hk, hv⟩
    simp only [List.map_cons, List.mem_cons] at h
    push_neg at h
    rw [List.lookup_cons]
    simp only [beq_eq_false_iff_ne.mpr h.1]
    exact ih h.2

theorem lookup_isSome_iff_mem_keys {κ α : Type} [BEq κ] [LawfulBEq κ]
    (l : List (κ × α)) (k : κ) :
    (l.lookup k).isSome = true ↔ k ∈ l.map Prod.fst := by
  induction l with
  | nil => simp
  | cons hd tl ih =>
    rcases hd with ⟨hk, hv⟩
    rw [List.lookup_cons]
    by_cases h : k = hk
    · simp [beq_iff_eq.mpr h, h]
    · simp only [beq_eq_false_iff_ne.mpr h, List.map_cons, List.mem_cons]
      rw [ih]
      simp [h]

theorem objSet_append (o : Obj) (k : String) (v : Value) (h : o.lookup k = none) :
    objSet o k v = o ++ [(k, v)] := by
  unfold objSet setA
  rw [h]
  rfl

theorem isFalseP_false_of_roundOk (pd : PDef) (v : Value) (hv : roundOk pd v) :
    isFalseP pd = false := by
  cases pd
  case pfalse => exact hv.elim
  all_goals rfl

/-- Each prop kind of the round-trip claim serializes successfully on a
`roundOk` value, and its deserializer recovers the exact value from the
serialized form. -/
theorem pdef_roundtrip (pd : PDef) (v : Value) (hk : roundKind pd) (hv : roundOk pd v) :
    pdefSer (canonP pd) v = .ok (serValFv pd v) ∧
    pdefDeser (canonP pd) (serValFv pd v) = .ok v := by
  cases pd with
  | ptrue =>
    have hv' : isPrimitive v = true := hv
    constructor <;>
      simp [canonP, serValFv, pdefSer, pdefDeser, primitiveSerializer,
        primitiveDeserializer, hv']
  | primP =>
    have hv' : isPrimitive v = true := hv
    constructor <;>
      simp [canonP, serValFv, pdefSer, pdefDeser, primitiveSerializer,
        primitiveDeserializer, hv']
  | dateP =>
    rcases hv with h | h | ⟨ms, h⟩ <;> subst h <;> exact ⟨rfl, rfl⟩
  | customP f g =>
    have hv' : g (f v) = v := hv
    refine ⟨rfl, ?_⟩
    show Except.ok (g (f v)) = Except.ok v
    rw [hv']
  | pfalse => exact hv.elim
  | aliasP name inner =>
    cases inner with
    | primP =>
      have hv' : isPrimitive v = true := hv
      constructor <;>
        simp [canonP, serValFv, pdefSer, pdefDeser, primitiveSerializer,
          primitiveDeserializer, hv']
    | dateP =>
      rcases hv with h | h | ⟨ms, h⟩ <;> subst h <;> exact ⟨rfl, rfl⟩
    | customP f g =>
      have hv' : g (f v) = v := hv
      refine ⟨rfl, ?_⟩
      show Except.ok (g (f v)) = Except.ok v
      rw [hv']
    | ptrue => exact hk.elim
    | pfalse => exact hk.elim
    | aliasP n2 i2 => exact hk.elim

theorem serializePropsWalk_cons (allProps : List (String × PDef)) (x : Obj)
    (key : String) (pd : PDef) (rest : List (String × PDef)) (res : Obj) (jv : Value)
    (hstar : key ≠ "*") (hfalse : isFalseP pd = false)
    (hser : pdefSer (canonP pd) (objGet x key) = .ok jv) :
    serializePropsWalk allProps x ((key, pd) :: rest) res
      = serializePropsWalk allProps x rest (objSet res (jsonAttrOf (canonP pd) key) jv) := by
  simp only [serializePropsWalk, if_neg hstar, hfalse, Bool.false_eq_true, if_false, hser]

theorem deserializePropsWalk_cons_assign (allProps : List (String × PDef)) (json : Obj)
    (key : String) (pd : PDef) (rest : List (String × PDef)) (target : Obj) (v : Value)
    (hstar : key ≠ "*") (hfalse : isFalseP pd = false)
    (hhas : objHas json (jsonAttrOf (canonP pd) key) = true)
    (hdeser : pdefDeser (canonP pd) (objGet json (jsonAttrOf (canonP pd) key)) = .ok v) :
    deserializePropsWalk allProps json ((key, pd) :: rest) target
      = deserializePropsWalk allProps json rest (objSet target key v) := by
  simp only [deserializePropsWalk, if_neg hstar, hfalse, Bool.false_eq_true, if_false,
    hhas, if_true, hdeser]

theorem deserializePropsWalk_cons_absent (allProps : List (String × PDef)) (json : Obj)
    (key : String) (pd : PDef) (rest : List (String × PDef)) (target : Obj)
    (hstar : key ≠ "*") (hfalse : isFalseP pd = false)
    (hhas : objHas json (jsonAttrOf (canonP pd) key) = false) :
    deserializePropsWalk allProps json ((key, pd) :: rest) target
      = deserializePropsWalk allProps json rest target := by
  simp only [deserializePropsWalk, if_neg hstar, hfalse, Bool.false_eq_true, if_false, hhas]

theorem deserializePropsWalk_cons_skip (allProps : List (String × PDef)) (json : Obj)
    (key : String) (pd : PDef) (rest : List (String × PDef)) (target : Obj)
    (hstar : key ≠ "*") (hfalse : isFalseP pd = true) :
    deserializePropsWalk allProps json ((key, pd) :: rest) target
      = deserializePropsWalk allProps json rest target := by
  simp only [deserializePropsWalk, if_neg hstar, hfalse, if_true]

theorem lookup_map_pair {α β : Type} (g : α → String) (hf : α → β) :
    ∀ (l : List α), (l.map g).Nodup →
      ∀ kp ∈ l, (l.map (fun e => (g e, hf e))).lookup (g kp) = some (hf kp) := by
  intro l
  induction l with
  | nil => intro _ kp h; exact absurd h (List.not_mem_nil kp)
  | cons hd tl ih =>
    intro hnd kp hm
    simp only [List.map_cons] at hnd ⊢
    rw [List.lookup_cons]
    rcases List.mem_cons.mp hm with h | h
    · rw [h]
      simp
    · have hne : g kp ≠ g hd := by
        intro he
        have hin : g kp ∈ tl.map g := List.mem_map_of_mem g h
        rw [he] at hin
        exact (List.nodup_cons.mp hnd).1 hin
      simp only [beq_eq_false_iff_ne.mpr hne]
      exact ih (List.nodup_cons.mp hnd).2 kp h

/-- The props iteration of `serializeWithSchema`, on round-trip props with
pairwise distinct JSON keys, extends the accumulated result with one JSON
entry per prop, in props order. -/
theorem serialize_walk_ok (x : Obj) :
    ∀ (rem allProps : List (String × PDef)) (res : Obj),
      (∀ kp ∈ rem, kp.1 ≠ "*" ∧ roundKind kp.2 ∧ roundOk kp.2 (objGet x kp.1)) →
      (res.map Prod.fst ++ rem.map (fun kp => jsonAttrOf (canonP kp.2) kp.1)).Nodup →
      serializePropsWalk allProps x rem res
        = .ok (res ++ rem.map (fun kp =>
            (jsonAttrOf (canonP kp.2) kp.1, serValFv kp.2 (objGet x kp.1)))) := by
  intro rem
  induction rem with
  | nil =>
    intro allProps res _ _
    simp [serializePropsWalk]
  | cons kp rest ih =>
    intro allProps res hall hnd
    obtain ⟨hstar, hk, hv⟩ := hall kp (List.mem_cons_self _ _)
    obtain ⟨hser, _⟩ := pdef_roundtrip kp.2 (objGet x kp.1) hk hv
    rcases kp with ⟨key, pd⟩
    have hfalse := isFalseP_false_of_roundOk pd (objGet x key) hv
    rw [serializePropsWalk_cons allProps x key pd rest res _ hstar hfalse hser]
    simp only [List.map_cons] at hnd
    have hnotin : jsonAttrOf (canonP pd) key ∉ res.map Prod.fst := by
      intro hm
      exact (List.disjoint_of_nodup_append hnd) hm (List.mem_cons_self _ _)
    rw [objSet_append res _ _ (lookup_eq_none_of_not_mem_keys _ _ hnotin)]
    rw [ih allProps (res ++ [(jsonAttrOf (canonP pd) key, serValFv pd (objGet x key))])
      (fun e he => hall e (List.mem_cons_of_mem _ he))
      (by
        simp only [List.map_append, List.map_cons, List.map_nil]
        rw [List.append_assoc, List.singleton_append]
        exact hnd)]
    rw [List.append_assoc, List.singleton_append]
    simp only [List.map_cons]

/-- The props iteration of `deserializePropsWithSchema`, on round-trip props
with distinct names whose JSON keys all look up to their serialized values,
extends the target with one entry per prop carrying the original value. -/
theorem deserialize_walk_ok (x json : Obj) :
    ∀ (rem allProps : List (String × PDef)) (target : Obj),
      (∀ kp ∈ rem, kp.1 ≠ "*" ∧ roundKind kp.2 ∧ roundOk kp.2 (objGet x kp.1) ∧
        json.lookup (jsonAttrOf (canonP kp.2) kp.1)
          = some (serValFv kp.2 (objGet x kp.1))) →
      (target.map Prod.fst ++ rem.map Prod.fst).Nodup →
      deserializePropsWalk allProps json rem target
        = .ok (target ++ rem.map (fun kp => (kp.1, objGet x kp.1))) := by
  intro rem
  induction rem with
  | nil =>
    intro allProps target _ _
    simp [deserializePropsWalk]
  | cons kp rest ih =>
    intro allProps target hall hnd
    obtain ⟨hstar, hk, hv, hlook⟩ := hall kp (List.mem_cons_self _ _)
    rcases kp with ⟨key, pd⟩
    have hfalse := isFalseP_false_of_roundOk pd (objGet x key) hv
    have hhas : objHas json (jsonAttrOf (canonP pd) key) = true := by
      unfold objHas
      rw [hlook]
      rfl
    have hget : objGet json (jsonAttrOf (canonP pd) key) = serValFv pd (objGet x key) := by
      unfold objGet
      rw [hlook]
      rfl
    have hdeser : pdefDeser (canonP pd) (objGet json (jsonAttrOf (canonP pd) key))
        = .ok (objGet x key) := by
      rw [hget]
      exact (pdef_roundtrip pd (objGet x key) hk hv).2
    rw [deserializePropsWalk_cons_assign allProps json key pd rest target _
      hstar hfalse hhas hdeser]
    simp only [List.map_cons] at hnd
    have hnotin : key ∉ target.map Prod.fst := by
      intro hm
      exact (List.disjoint_of_nodup_append hnd) hm (List.mem_cons_self _ _)
    rw [objSet_append target _ _ (lookup_eq_none_of_not_mem_keys _ _ hnotin)]
    rw [ih allProps (target ++ [(key, objGet x key)])
      (fun e he => hall e (List.mem_cons_of_mem _ he))
      (by
        simp only [List.map_append, List.map_cons, List.map_nil]
        rw [List.append_assoc, List.singleton_append]
        exact hnd)]
    rw [List.append_assoc, List.singleton_append]
    simp only [List.map_cons]

/-- C6 counterexample: the claim as stated fails when two props share a JSON
key.  With `{a: alias("b", primitive()), b: true}` — only primitive and
alias prop schemas — the value `{a: 1, b: 2}` serializes (the second write
to key `"b"` overwrites the first), but deserializing the result yields
`{a: 2, b: 2}`, not a structurally equal value: property `a` changed. -/
theorem C6_collision_counterexample :
    serializeSimpleM [("a", .aliasP "b" .primP), ("b", .ptrue)]
        [("a", .vnum 1), ("b", .vnum 2)] = .ok [("b", .vnum 2)] ∧
    deserializeSimpleM [("a", .aliasP "b" .primP), ("b", .ptrue)] [("b", .vnum 2)]
      = .ok [("a", .vnum 2), ("b", .vnum 2)] ∧
    ¬ (([("a", .vnum 2), ("b", .vnum 2)] : Obj).lookup "a"
        = ([("a", .vnum 1), ("b", .vnum 2)] : Obj).lookup "a") := by
  refine ⟨rfl, rfl, ?_⟩
  intro h
  simp [List.lookup] at h

/-- C6 amended: for every schema whose props contain only primitive, date,
alias and symmetric custom prop schemas *with pairwise distinct JSON keys*
(`jsonname` or prop name), and every value serializable under that schema
(its keys are the schema's props, each value serializable by its prop),
`deserialize(schema, serialize(schema, x))` succeeds and yields a value
structurally equal to `x` (same keys, same values). -/
theorem C6_roundtrip (props : List (String × PDef)) (x : Obj)
    (hkinds : ∀ kp ∈ props, kp.1 ≠ "*" ∧ roundKind kp.2)
    (hnames : (props.map Prod.fst).Nodup)
    (hjattrs : (props.map (fun kp => jsonAttrOf (canonP kp.2) kp.1)).Nodup)
    (hdom : ∀ k, (x.lookup k).isSome = true ↔ k ∈ props.map Prod.fst)
    (hvals : ∀ kp ∈ props, roundOk kp.2 (objGet x kp.1)) :
    ∃ json y, serializeSimpleM props x = .ok json ∧
      deserializeSimpleM props json = .ok y ∧
      ∀ k, y.lookup k = x.lookup k := by
  have hall : ∀ kp ∈ props, kp.1 ≠ "*" ∧ roundKind kp.2 ∧ roundOk kp.2 (objGet x kp.1) :=
    fun kp hm => ⟨(hkinds kp hm).1, (hkinds kp hm).2, hvals kp hm⟩
  have hser := serialize_walk_ok x props props [] hall (by simpa using hjattrs)
  have hserS : serializeSimpleM props x
      = .ok (props.map (fun kp =>
          (jsonAttrOf (canonP kp.2) kp.1, serValFv kp.2 (objGet x kp.1)))) := by
    unfold serializeSimpleM serializeWithSchemaM
    simpa using hser
  have hlookups := lookup_map_pair (fun kp : String × PDef => jsonAttrOf (canonP kp.2) kp.1)
    (fun kp => serValFv kp.2 (objGet x kp.1)) props hjattrs
  have hdeser := deserialize_walk_ok x
    (props.map (fun kp => (jsonAttrOf (canonP kp.2) kp.1, serValFv kp.2 (objGet x kp.1))))
    props props []
    (fun kp hm => ⟨(hall kp hm).1, (hall kp hm).2.1, (hall kp hm).2.2, hlookups kp hm⟩)
    (by simpa using hnames)
  have hdeserS : deserializeSimpleM props
      (props.map (fun kp => (jsonAttrOf (canonP kp.2) kp.1, serValFv kp.2 (objGet x kp.1))))
      = .ok (props.map (fun kp => (kp.1, objGet x kp.1))) := by
    unfold deserializeSimpleM deserializePropsWithSchemaM
    simpa using hdeser
  refine ⟨_, _, hserS, hdeserS, ?_⟩
  intro k
  by_cases hk : k ∈ props.map Prod.fst
  · obtain ⟨kp, hkp, hfst⟩ := List.mem_map.mp hk
    have hy := lookup_map_pair Prod.fst (fun kp : String × PDef => objGet x kp.1)
      props hnames kp hkp
    rw [← hfst, hy]
    have hx : (x.lookup kp.1).isSome = true := (hdom kp.1).mpr (hfst ▸ hk)
    cases hxl : x.lookup kp.1 with
    | none =>
      rw [hxl] at hx
      exact absurd hx (by simp)
    | some w =>
      simp only [objGet]
      rw [hxl]
      rfl
  · have hkeys : (props.map (fun kp : String × PDef => (kp.1, objGet x kp.1))).map Prod.fst
        = props.map Prod.fst := by
      rw [List.map_map]
      rfl
    have hy := lookup_eq_none_of_not_mem_keys
      (props.map (fun kp : String × PDef => (kp.1, objGet x kp.1))) k
      (by rw [hkeys]; exact hk)
    have hx : x.lookup k = none := by
      cases hxl : x.lookup k with
      | none => rfl
      | some w => exact absurd ((hdom k).mp (by rw [hxl]; rfl)) hk
    rw [hy, hx]

/-- C6 witness: a two-prop schema (a primitive and a date) round trips a
concrete value. -/
theorem C6_roundtrip_witness :
    ∃ json y,
      serializeSimpleM [("title", .ptrue), ("when", .dateP)]
          [("title", .vstr "A"), ("when", .vdate 5)] = .ok json ∧
      deserializeSimpleM [("title", .ptrue), ("when", .dateP)] json = .ok y ∧
      ∀ k, y.lookup k
        = ([("title", .vstr "A"), ("when", .vdate 5)] : Obj).lookup k := by
  refine C6_roundtrip [("title", .ptrue), ("when", .dateP)]
    [("title", .vstr "A"), ("when", .vdate 5)] ?_ ?_ ?_ ?_ ?_
  · intro kp hm
    rcases List.mem_cons.mp hm with h | h
    · rw [h]; exact ⟨by decide, trivial⟩
    · rw [List.mem_singleton] at h
      rw [h]; exact ⟨by decide, trivial⟩
  · simp
  · simp [jsonAttrOf, jsonnameOf, canonP]
  · intro k
    exact lookup_isSome_iff_mem_keys ([("title", .vstr "A"), ("when", .vdate 5)] : Obj) k
  · intro kp hm
    rcases List.mem_cons.mp hm with h | h
    · rw [h]; exact rfl
    · rw [List.mem_singleton] at h
      rw [h]
      exact Or.inr (Or.inr ⟨5, rfl⟩)

/-! ## C8 — the frame property of `update` -/

theorem lookup_of_mem_nodup {κ α : Type} [BEq κ] [LawfulBEq κ]
    (l : List (κ × α)) (k : κ) (a : α) (hnd : (l.map Prod.fst).Nodup)
    (hm : (k, a) ∈ l) : l.lookup k = some a := by
  induction l with
  | nil => simp at hm
  | cons hd tl ih =>
    rcases hd with ⟨hk, hv⟩
    simp only [List.map_cons] at hnd
    rw [List.lookup_cons]
    rcases List.mem_cons.mp hm with h | h
    · obtain ⟨h1, h2⟩ := Prod.mk.injEq .. ▸ h
      subst h1
      subst h2
      simp
    · have hne : k ≠ hk := by
        intro he
        subst he
        have hin : k ∈ tl.map Prod.fst := List.mem_map.mpr ⟨(k, a), h, rfl⟩
        exact (List.nodup_cons.mp hnd).1 hin
      simp only [beq_eq_false_iff_ne.mpr hne]
      exact ih (List.nodup_cons.mp hnd).2 h

/-- The `*` star walk leaves key `k` untouched when `k` is among the level's
props, or hidden behind one of its aliases, or absent from the json. -/
theorem deserializeStarWalk_frame (allProps : List (String × PDef)) (k : String) :
    ∀ (entries : List (String × Value)) (target result : Obj),
      deserializeStarWalk allProps entries target = .ok result →
      ((allProps.lookup k).isSome = true ∨ schemaHasAliasM allProps k = true ∨
        k ∉ entries.map Prod.fst) →
      result.lookup k = target.lookup k := by
  intro entries
  induction entries with
  | nil =>
    intro target result h _
    simp only [deserializeStarWalk] at h
    injection h with h
    rw [h]
  | cons kv rest ih =>
    intro target result h hcond
    rcases kv with ⟨ek, ev⟩
    have hcond' : (allProps.lookup k).isSome = true ∨ schemaHasAliasM allProps k = true ∨
        k ∉ rest.map Prod.fst := by
      rcases hcond with hc | hc | hc
      · exact Or.inl hc
      · exact Or.inr (Or.inl hc)
      · refine Or.inr (Or.inr ?_)
        intro hm
        exact hc (by simp [hm])
    cases hskip : ((allProps.lookup ek).isSome || schemaHasAliasM allProps ek) with
    | true =>
      simp only [deserializeStarWalk, hskip, if_true] at h
      exact ih target result h hcond'
    | false =>
      cases hprim : isPrimitive ev with
      | false =>
        simp only [deserializeStarWalk, hskip, hprim, Bool.false_eq_true, if_false] at h
        cases h
      | true =>
        simp only [deserializeStarWalk, hskip, hprim, Bool.false_eq_true, if_false,
          if_true] at h
        have hekk : ek ≠ k := by
          intro he
          subst he
          rcases hcond with hc | hc | hc
          · rw [hc] at hskip
            simp at hskip
          · rw [hc] at hskip
            simp at hskip
          · exact hc (by simp)
        rw [ih (objSet target ek ev) result h hcond']
        rw [objSet_lookup]
        rw [if_neg (fun he => hekk he.symm)]

/-- The star-entry step of the props walk. -/
theorem deserializePropsWalk_cons_star (allProps : List (String × PDef)) (json : Obj)
    (pd : PDef) (rest : List (String × PDef)) (target : Obj) (htrue : isTrueP pd = true) :
    deserializePropsWalk allProps json (("*", pd) :: rest) target
      = match deserializeStarWalk allProps json target with
        | .ok t' => deserializePropsWalk allProps json rest t'
        | .error e => .error e := by
  simp only [deserializePropsWalk, if_pos rfl, htrue, if_true]

theorem deserializePropsWalk_cons_star_invalid (allProps : List (String × PDef))
    (json : Obj) (pd : PDef) (rest : List (String × PDef)) (target : Obj)
    (htrue : isTrueP pd = false) :
    deserializePropsWalk allProps json (("*", pd) :: rest) target
      = .error "[serializr] prop schema '*' can onle be used with 'true'" := by
  simp only [deserializePropsWalk, if_pos rfl, htrue, Bool.false_eq_true, if_false]
  simp

/-- One level of the props walk leaves key `k` untouched when every entry
named `k` is skipped (the sentinel `false`, or its JSON key absent) and any
star entry cannot capture `k`. -/
theorem deserializePropsWalk_frame (json : Obj) (k : String) (hk : k ≠ "*") :
    ∀ (rem allProps : List (String × PDef)) (target result : Obj),
      deserializePropsWalk allProps json rem target = .ok result →
      (∀ pd, (k, pd) ∈ rem → isFalseP pd = true ∨
        objHas json (jsonAttrOf (canonP pd) k) = false) →
      (∀ pd, ("*", pd) ∈ rem →
        (allProps.lookup k).isSome = true ∨ schemaHasAliasM allProps k = true ∨
          objHas json k = false) →
      result.lookup k = target.lookup k := by
  intro rem
  induction rem with
  | nil =>
    intro allProps target result h _ _
    simp only [deserializePropsWalk] at h
    injection h with h
    rw [h]
  | cons kp rest ih =>
    intro allProps target result h hnamed hstar
    rcases kp with ⟨key, pd⟩
    have hnamed' : ∀ pd, (k, pd) ∈ rest → isFalseP pd = true ∨
        objHas json (jsonAttrOf (canonP pd) k) = false :=
      fun p hm => hnamed p (List.mem_cons_of_mem _ hm)
    have hstar' : ∀ pd, ("*", pd) ∈ rest →
        (allProps.lookup k).isSome = true ∨ schemaHasAliasM allProps k = true ∨
          objHas json k = false :=
      fun p hm => hstar p (List.mem_cons_of_mem _ hm)
    by_cases hks : key = "*"
    · subst hks
      cases htr : isTrueP pd with
      | false => rw [deserializePropsWalk_cons_star_invalid _ _ _ _ _ htr] at h; cases h
      | true =>
        rw [deserializePropsWalk_cons_star _ _ _ _ _ htr] at h
        cases hsw : deserializeStarWalk allProps json target with
        | error e => rw [hsw] at h; cases h
        | ok t' =>
          rw [hsw] at h
          have hstarcond := hstar pd (List.mem_cons_self _ _)
          have hnotin : (allProps.lookup k).isSome = true ∨
              schemaHasAliasM allProps k = true ∨ k ∉ json.map Prod.fst := by
            rcases hstarcond with hc | hc | hc
            · exact Or.inl hc
            · exact Or.inr (Or.inl hc)
            · refine Or.inr (Or.inr ?_)
              intro hm
              have := (lookup_isSome_iff_mem_keys json k).mpr hm
              unfold objHas at hc
              rw [hc] at this
              cases this
          rw [ih allProps t' result h hnamed' hstar']
          exact deserializeStarWalk_frame allProps k json target t' hsw hnotin
    · cases hfp : isFalseP pd with
      | true =>
        rw [deserializePropsWalk_cons_skip _ _ _ _ _ _ hks hfp] at h
        exact ih allProps target result h hnamed' hstar'
      | false =>
        cases hhas : objHas json (jsonAttrOf (canonP pd) key) with
        | false =>
          rw [deserializePropsWalk_cons_absent _ _ _ _ _ _ hks hfp hhas] at h
          exact ih allProps target result h hnamed' hstar'
        | true =>
          have hkeyk : key ≠ k := by
            intro he
            subst he
            rcases hnamed pd (List.mem_cons_self _ _) with hc | hc
            · rw [hc] at hfp; cases hfp
            · rw [hc] at hhas; cases hhas
          cases hdes : pdefDeser (canonP pd) (objGet json (jsonAttrOf (canonP pd) key)) with
          | error e =>
            simp only [deserializePropsWalk, if_neg hks, hfp, Bool.false_eq_true, if_false,
              hhas, if_true, hdes] at h
            cases h
          | ok v =>
            rw [deserializePropsWalk_cons_assign _ _ _ _ _ _ _ hks hfp hhas hdes] at h
            rw [ih allProps (objSet target key v) result h hnamed' hstar']
            rw [objSet_lookup]
            rw [if_neg (fun he => hkeyk he.symm)]

/-- C8 counterexample: with `parent = {"*": true}` and
`child = {x: alias("j", primitive())}` extending it, `update(child, {x: 1},
{x: 2})` changes property `x` to 2 although `x`'s JSON key — its jsonname
`"j"` — is absent from the json: the parent level's `*` entry reads the key
`"x"` directly (it checks only its own props and aliases) and overwrites
the aliased property. -/
theorem C8_star_overwrites_aliased_counterexample :
    updateM (.mk [("x", .aliasP "j" .primP)] (some (.mk [("*", .ptrue)] none)))
        [("x", .vnum 1)] [("x", .vnum 2)]
      = .ok [("x", .vnum 2)] ∧
    ¬ (([("x", .vnum 2)] : Obj).lookup "x" = ([("x", .vnum 1)] : Obj).lookup "x") := by
  refine ⟨rfl, ?_⟩
  intro h
  simp [List.lookup] at h

/-- C8 amended: in a successful `update(schema, target, json, ...)` run, a
property `k` of the target retains its previous value whenever *no level of
the extends chain can read it*: at each level, either `k` is unlisted there
and the level has no `*` entry able to capture it (no star, or `k` listed /
aliased there, or `k` itself absent from json), or `k` is listed and its
JSON key at that level (its `jsonname` there if aliased, otherwise the
property name) is absent from json (or the prop is the `false` sentinel).
In particular only properties for which some level finds its JSON key
present in the json are ever assigned.  For a schema without `extends` and
without `*` this is exactly the original claim. -/
theorem levelTouches_false_named (props : List (String × PDef)) (json : Obj)
    (k : String) (hnd : (props.map Prod.fst).Nodup)
    (hlevel : levelTouches props json k = false) :
    ∀ pd, (k, pd) ∈ props → isFalseP pd = true ∨
      objHas json (jsonAttrOf (canonP pd) k) = false := by
  intro pd hm
  have hlk : props.lookup k = some pd := lookup_of_mem_nodup props k pd hnd hm
  unfold levelTouches at hlevel
  rw [Bool.or_eq_false_iff] at hlevel
  have h1 := hlevel.1
  rw [hlk] at h1
  rw [Bool.and_eq_false_iff] at h1
  rcases h1 with h1 | h1
  · left
    cases hfp : isFalseP pd
    · rw [hfp] at h1
      simp at h1
    · rfl
  · exact Or.inr h1

theorem levelTouches_false_star (props : List (String × PDef)) (json : Obj)
    (k : String) (hlevel : levelTouches props json k = false) :
    ∀ pd, ("*", pd) ∈ props →
      (props.lookup k).isSome = true ∨ schemaHasAliasM props k = true ∨
        objHas json k = false := by
  intro pd hm
  have hlkstar : (props.lookup "*").isSome = true :=
    lookup_isSome_of_mem props ("*", pd) hm
  unfold levelTouches at hlevel
  rw [Bool.or_eq_false_iff] at hlevel
  have h2 := hlevel.2
  rw [hlkstar] at h2
  simp only [Bool.true_and] at h2
  rw [Bool.and_eq_false_iff] at h2
  rcases h2 with h2 | h2
  · rw [Bool.and_eq_false_iff] at h2
    rcases h2 with h2 | h2
    · left
      cases hlk : props.lookup k with
      | none => rw [hlk] at h2; simp at h2
      | some v => simp
    · right
      left
      cases ha : schemaHasAliasM props k
      · rw [ha] at h2
        simp at h2
      · rfl
  · exact Or.inr (Or.inr h2)

theorem C8_update_frame :
    ∀ (schema : SSchema) (target json result : Obj) (k : String),
      schemaWF schema → k ≠ "*" →
      updateM schema target json = .ok result →
      chainTouches schema json k = false →
      result.lookup k = target.lookup k
  | .mk props none, target, json, result, k => by
    intro hwf hk hrun ht
    have hwf' : (props.map Prod.fst).Nodup ∧ True := hwf
    have ht' : (false || levelTouches props json k) = false := ht
    rw [Bool.false_or] at ht'
    have hrun' : deserializePropsWalk props json props target = .ok result := hrun
    exact deserializePropsWalk_frame json k hk props props target result hrun'
      (levelTouches_false_named props json k hwf'.1 ht')
      (levelTouches_false_star props json k ht')
  | .mk props (some p), target, json, result, k => by
    intro hwf hk hrun ht
    have hwf' : (props.map Prod.fst).Nodup ∧ schemaWF p := hwf
    have ht' : (chainTouches p json k || levelTouches props json k) = false := ht
    rw [Bool.or_eq_false_iff] at ht'
    have hrun' : (match deserializePropsWithSchemaM p json target with
        | .ok t => deserializePropsWalk props json props t
        | .error e => .error e) = .ok result := hrun
    cases hp : deserializePropsWithSchemaM p json target with
    | error e =>
      rw [hp] at hrun'
      cases hrun'
    | ok t =>
      rw [hp] at hrun'
      have hparent := C8_update_frame p target json t k hwf'.2 hk hp ht'.1
      rw [deserializePropsWalk_frame json k hk props props t result hrun'
        (levelTouches_false_named props json k hwf'.1 ht'.2)
        (levelTouches_false_star props json k ht'.2)]
      exact hparent

/-- C8 witness: updating `{a: 1, b: 5}` with json `{c: 9}` under the schema
`{a: primitive(), j: alias("jj", primitive())}` leaves `a` (JSON key `"a"`
absent from the json) unchanged. -/
theorem C8_update_frame_witness :
    updateM (.mk [("a", .primP), ("j", .aliasP "jj" .primP)] none)
        [("a", .vnum 1), ("b", .vnum 5)] [("c", .vnum 9)]
      = .ok [("a", .vnum 1), ("b", .vnum 5)] ∧
    ([("a", .vnum 1), ("b", .vnum 5)] : Obj).lookup "a"
      = ([("a", .vnum 1), ("b", .vnum 5)] : Obj).lookup "a" := by
  have hrun : updateM (.mk [("a", .primP), ("j", .aliasP "jj" .primP)] none)
      [("a", .vnum 1), ("b", .vnum 5)] [("c", .vnum 9)]
      = .ok [("a", .vnum 1), ("b", .vnum 5)] := rfl
  refine ⟨hrun, ?_⟩
  exact C8_update_frame (.mk [("a", .primP), ("j", .aliasP "jj" .primP)] none)
    [("a", .vnum 1), ("b", .vnum 5)] [("c", .vnum 9)]
    [("a", .vnum 1), ("b", .vnum 5)] "a"
    (by constructor
        · simp
        · trivial)
    (by decide) hrun rfl

end Serializr

namespace Serializr.Pipe

/-! ## C10 — null/undefined json -/

/-- C10: for every schema, `deserialize(schema, json, completion)` with json
null or undefined invokes the completion once with `(null, null)`, creates
no Context and no instance (the factory is never invoked — the whole state
is unchanged except for the recorded completion), and returns undefined;
with the completion omitted, the call throws a TypeError
(src/serializr.js:362-363 calls the missing callback directly) instead of
silently dropping the result. -/
theorem C10_null_json (env : SEnv) (sid : Sid) (d : SchemaDef) (k : Nat)
    (h : env.lookup sid = some d) :
    topDeserialize (k+2) (mkSt env) sid .vnull (some .userCb)
        = ({ mkSt env with userCalls := [(none, some (.prim .vnull))] }, none) ∧
    topDeserialize (k+2) (mkSt env) sid .vundef (some .userCb)
        = ({ mkSt env with userCalls := [(none, some (.prim .vnull))] }, none) ∧
    (topDeserialize (k+2) (mkSt env) sid .vnull none).1.crashed
        = some "TypeError: callback is not a function" := by
  refine ⟨?_, ?_, ?_⟩ <;>
    simp [topDeserialize, deserObj, exec, dispatchCalls, mkSt, crash, h]

/-- C10 witness at a concrete one-schema environment. -/
theorem C10_null_json_witness :
    topDeserialize 2 (mkSt [(0, { props := [("t", .ptrue)], ext := none })]) 0 .vnull
        (some .userCb)
      = ({ mkSt [(0, { props := [("t", .ptrue)], ext := none })] with
            userCalls := [(none, some (.prim .vnull))] }, none) ∧
    (topDeserialize 2 (mkSt [(0, { props := [("t", .ptrue)], ext := none })]) 0 .vnull
        none).1.crashed = some "TypeError: callback is not a function" := by
  have h := C10_null_json [(0, { props := [("t", .ptrue)], ext := none })] 0
    { props := [("t", .ptrue)], ext := none } 0 rfl
  exact ⟨h.1, h.2.2⟩

/-! ## C4 — the unresolvable-references settlement -/

/-- C4: when a root-Context callback fires successfully and the decremented
`pendingCallbacks` equals `pendingRefsCount` with `pendingRefsCount > 0`,
the context's completion is invoked with an error whose message enumerates
exactly the identifier keys whose pending-reference list is non-empty
(src/serializr.js:453-462). -/
theorem C4_unresolvable_settlement (st : St) (wid : Nat) (w : Wrapper) (c : CtxR)
    (v : Option DValue)
    (hcr : st.crashed = none)
    (hw : st.wrappers.lookup wid = some w)
    (hf : w.fired = false)
    (hc : st.ctxs.lookup w.ctxId = some c)
    (he : c.hasError = false)
    (hpc : c.pc - 1 = c.prc)
    (hpr : 0 < c.prc) :
    (fireLocal st wid (none, v)).2
      = [(c.onReady, (some (unresolvableMsg c.pendingRefs), none))] ∧
    pendingKeys c.pendingRefs
      = (c.pendingRefs.filter (fun kv => !kv.2.isEmpty)).map Prod.fst ∧
    unresolvableMsg c.pendingRefs
      = "Unresolvable references in json: \"" ++
          String.intercalate "\", \"" (pendingKeys c.pendingRefs) ++ "\"" := by
  refine ⟨?_, rfl, rfl⟩
  simp [fireLocal, hcr, hw, hf, getCtx, hc, he, setCtx, hpc, hpr]

/-- C4 witness: the `deserialize(Post, {author: 99, msg: "hi"})` settlement —
firing the lock callback on `c4St` delivers the error naming `"99"` to the
user completion. -/
theorem C4_unresolvable_settlement_witness :
    (fireLocal c4St 2 (none, none)).2
      = [(.userCb, (some "Unresolvable references in json: \"99\"", none))] := by
  have h := C4_unresolvable_settlement c4St 2
    { ctxId := 0, fn := .noopF, fired := false } c4Ctx none rfl rfl rfl rfl rfl
    (by decide) (by decide)
  rw [h.1]
  rfl

/-! ## C3 — completion exclusivity and the error latch -/

/-- C3 counterexample: the unresolvable-references settlement does *not*
latch `hasError`, so a subsequent callback is not absorbed: after
`deserialize(S, {a: 7, b: "x"}, cb)` settles with the unresolvable-references
error, a late `rootContext.resolve` for identifier 7 (legal through the
Context surface handed to custom deserializers) runs the absorbed-looking
property callback, assigns the property, and fires the completion a second
time — now with success. -/
theorem C3_completion_fires_twice :
    c3St.userCalls = [(some "Unresolvable references in json: \"7\"", none)] ∧
    (getCtx c3St 0).map CtxR.hasError = some false ∧
    c3LateSt.crashed = none ∧
    c3LateSt.userCalls = [(some "Unresolvable references in json: \"7\"", none),
                          (none, some (.objI 1))] ∧
    heapProp c3LateSt 1 "a" = some (.objI 1) :=
  ⟨rfl, rfl, rfl, rfl, rfl⟩

/-- C3 amended: on a latched context every further callback is silently
absorbed (no completion, no `fn`, no state change besides the once-guard);
an error-carrying callback on an unlatched context fires the completion
exactly then and latches `hasError`; but the unresolvable-references
settlement leaves `hasError` false — the first *error-carrying callback*
latches, the stuck settlement does not. -/
theorem C3_error_latch (st : St) (wid : Nat) (w : Wrapper) (c : CtxR)
    (hcr : st.crashed = none)
    (hw : st.wrappers.lookup wid = some w)
    (hf : w.fired = false)
    (hc : st.ctxs.lookup w.ctxId = some c) :
    (c.hasError = true → ∀ arg, (fireLocal st wid arg).2 = [] ∧
        (fireLocal st wid arg).1.heap = st.heap ∧
        (fireLocal st wid arg).1.ctxs = st.ctxs ∧
        (fireLocal st wid arg).1.userCalls = st.userCalls) ∧
    (c.hasError = false → ∀ e v,
        (fireLocal st wid (some e, v)).2 = [(c.onReady, (some e, none))] ∧
        ((fireLocal st wid (some e, v)).1.ctxs.lookup w.ctxId).map CtxR.hasError
          = some true) ∧
    (c.hasError = false → c.pc - 1 = c.prc → 0 < c.prc → ∀ v,
        ((fireLocal st wid (none, v)).1.ctxs.lookup w.ctxId).map CtxR.hasError
          = some false) := by
  refine ⟨?_, ?_, ?_⟩
  · intro he arg
    rcases arg with ⟨e?, v?⟩
    cases e? <;>
      simp [fireLocal, hcr, hw, hf, getCtx, hc, he]
  · intro he e v
    simp [fireLocal, hcr, hw, hf, getCtx, hc, he, setCtx, setA_lookup]
  · intro he hpc hpr v
    simp [fireLocal, hcr, hw, hf, getCtx, hc, he, setCtx, hpc, hpr, setA_lookup]

/-- C3 witness: absorption on a latched context, the latch on a first error,
and the unlatched stuck settlement, each at a concrete state. -/
theorem C3_error_latch_witness :
    (fireLocal c3AbsorbSt 2 (none, some (.prim .vnull))).2 = [] ∧
    (fireLocal c4St 2 (some "boom", none)).2 = [(.userCb, (some "boom", none))] ∧
    ((fireLocal c4St 2 (none, none)).1.ctxs.lookup 0).map CtxR.hasError = some false := by
  have h1 := (C3_error_latch c3AbsorbSt 2
    { ctxId := 0, fn := .noopF, fired := false } { c4Ctx with hasError := true }
    rfl rfl rfl rfl).1 rfl (none, some (.prim .vnull))
  have h2 := (C3_error_latch c4St 2
    { ctxId := 0, fn := .noopF, fired := false } c4Ctx rfl rfl rfl rfl).2.1 rfl "boom" none
  have h3 := (C3_error_latch c4St 2
    { ctxId := 0, fn := .noopF, fired := false } c4Ctx rfl rfl rfl rfl).2.2 rfl
    (by decide) (by decide) none
  exact ⟨h1.1, h2.1, h3⟩

/-! ## C5 — reference resolution and document order -/

/-- C5 counterexample: in a top-level JSON array each element is
deserialized with its own root Context (src/serializr.js:350 passes a null
parent), so a reference in one element to an identifier published by
another element never resolves — the run settles with the
unresolvable-references error in *both* document orders, publisher-first
and referrer-first, instead of completing successfully. -/
theorem C5_array_elements_have_separate_roots :
    (runDeserialize unionEnv 5 unionArrJson).userCalls
      = [(some "Unresolvable references in json: \"1\"", none)] ∧
    (runDeserialize unionEnv 5 unionArrJsonRev).userCalls
      = [(some "Unresolvable references in json: \"1\"", none)] :=
  ⟨rfl, rfl⟩

/-- C5 amended: within a single root Context — publisher and referrer nested
under one root object — resolution is order independent: whether the
publishing object precedes or follows the referring object, deserialization
completes successfully with the reference property set to the published
instance. -/
theorem C5_shared_root_order_independent :
    (runDeserialize nestEnv 3 nestJson).userCalls = [(none, some (.objI 1))] ∧
    heapProp (runDeserialize nestEnv 3 nestJson) 1 "u" = some (.objI 5) ∧
    heapProp (runDeserialize nestEnv 3 nestJson) 1 "p" = some (.objI 11) ∧
    heapProp (runDeserialize nestEnv 3 nestJson) 5 "uuid" = some (.prim (.vnum 1)) ∧
    heapProp (runDeserialize nestEnv 3 nestJson) 11 "author" = some (.objI 5) ∧
    (runDeserialize nestEnv 4 nestJson).userCalls = [(none, some (.objI 1))] ∧
    heapProp (runDeserialize nestEnv 4 nestJson) 1 "p" = some (.objI 5) ∧
    heapProp (runDeserialize nestEnv 4 nestJson) 1 "u" = some (.objI 11) ∧
    heapProp (runDeserialize nestEnv 4 nestJson) 11 "uuid" = some (.prim (.vnum 1)) ∧
    heapProp (runDeserialize nestEnv 4 nestJson) 5 "author" = some (.objI 11) :=
  ⟨rfl, rfl, rfl, rfl, rfl, rfl, rfl, rfl, rfl, rfl⟩

end Serializr.Pipe
